import Mathlib

/-!
Verification of the SYNOID transcription utilities.

This development gives a shallow embedding of the two transcription
entry points of the repository:

* `src/tools/transcribe.py` — the file-writing CLI wrapper
  (`get_safe_device` and `main`), and
* `src/scripts/transcribe_bridge.py` — the stdout-JSON "bridge" variant.

External effects (the torch CUDA probe, `whisper.load_model`,
`model.transcribe`, file writes) are modelled as explicit oracle records
(`TorchProbe`, `WhisperEnv`, `BridgeEnv`): each oracle either returns a
value or an error string, standing for a Python return or a raised
exception.  A run of a script is a pure function from the CLI arguments
and the oracles to a trace recording the observable behaviour: exit
status, stderr lines, stdout documents, external calls and attempted
file writes, exactly in the order the Python code produces them.
-/

namespace Synoid

/-! ### Device selection (`get_safe_device` in `src/tools/transcribe.py`) -/

/-- The two device strings the script can choose: `"cuda"` or `"cpu"`. -/
inductive Device
  | cuda
  | cpu
deriving DecidableEq, Repr

/-- The device string passed to `whisper.load_model`. -/
def Device.str : Device → String
  | Device.cuda => "cuda"
  | Device.cpu => "cpu"

/-- Model of `torch.cuda.get_device_properties(0)`: the fields the script
reads (`major`, `minor`, `name`). -/
structure DeviceProps where
  major : Int
  minor : Int
  name : String
deriving DecidableEq, Repr

/-- Model of the torch probing interface used by `get_safe_device`:
`cudaAvailable` is the value of `torch.cuda.is_available()`, and `props`
is the outcome of `torch.cuda.get_device_properties(0)` — `Except.error e`
models that call raising an exception with message `e`. -/
structure TorchProbe where
  cudaAvailable : Bool
  props : Except String DeviceProps

/-- Embedding of `get_safe_device(force_cpu)` from `src/tools/transcribe.py`.
Returns the chosen device together with the stderr lines it prints.

```python
def get_safe_device(force_cpu=False):
    if force_cpu or not torch.cuda.is_available():
        return "cpu"
    try:
        device_props = torch.cuda.get_device_properties(0)
        major, minor = device_props.major, device_props.minor
        compute_cap = major * 10 + minor
        if compute_cap >= 120:
            gpu_name = device_props.name
            print(f"[PY] INFO: ... Attempting to use CUDA...", file=sys.stderr)
            return "cuda"
        return "cuda"
    except Exception as e:
        print(f"[PY] GPU detection failed: ..., using CPU", file=sys.stderr)
        return "cpu"
``` -/
def get_safe_device (force_cpu : Bool) (torch : TorchProbe) : Device × List String :=
  if force_cpu || !torch.cudaAvailable then
    (Device.cpu, [])
  else
    match torch.props with
    | Except.ok p =>
        let compute_cap : Int := p.major * 10 + p.minor
        if compute_cap ≥ 120 then
          (Device.cuda,
            ["[PY] INFO: " ++ p.name ++ " (sm_" ++ toString compute_cap
              ++ ") detected. Attempting to use CUDA..."])
        else
          (Device.cuda, [])
    | Except.error e =>
        (Device.cpu, ["[PY] GPU detection failed: " ++ e ++ ", using CPU"])

/-! ### JSON number literals

Whisper timestamps are Python floats.  `json.dump` writes a float as
`float.__repr__` (the shortest decimal literal that parses back to the
same float, e.g. `0.0`, `6.08`, `1e-05`, `1e+16`), and `json.load` parses
the literal back with `float()`, for which CPython documents
`float(repr(x)) == x`.  A finite float is therefore represented here by
the decimal literal itself, structured by the JSON number grammar
`-?(0|[1-9][0-9]*)(\.[0-9]+)?([eE][-+]?[0-9]+)?`; literal equality is
float equality because `repr` is injective on finite floats. -/

/-- Sign of an exponent part: absent, `+`, or `-`. -/
inductive ExpSign
  | noSign
  | plusSign
  | minusSign
deriving DecidableEq, Repr

/-- Exponent part of a JSON number literal (`e`, a sign, digits). -/
structure ExpPart where
  sign : ExpSign
  digits : List Nat
deriving DecidableEq, Repr

/-- A JSON number literal: optional minus sign, integer digits, optional
fractional digits, optional exponent.  Digits are base-10 values. -/
structure NumLit where
  neg : Bool
  intDigits : List Nat
  frac : Option (List Nat)
  exp : Option ExpPart
deriving DecidableEq, Repr

/-- A nonempty list of base-10 digit values. -/
def digitsWf (ds : List Nat) : Bool :=
  !ds.isEmpty && ds.all (fun d => d < 10)

/-- Well-formedness of a number literal under the JSON grammar: nonempty
digit runs, and no leading zero in the integer part unless it is the
single digit `0`. -/
def NumLit.wf (n : NumLit) : Bool :=
  digitsWf n.intDigits
    && (decide (n.intDigits.length = 1) || decide (n.intDigits.headI ≠ 0))
    && (match n.frac with
        | none => true
        | some ds => digitsWf ds)
    && (match n.exp with
        | none => true
        | some e => digitsWf e.digits)

/-- The character for a decimal digit value. -/
def digitChar (d : Nat) : Char := Char.ofNat (48 + d)

/-- Render a run of decimal digits. -/
def renderDigits (ds : List Nat) : List Char := ds.map digitChar

/-- The characters rendering an exponent sign. -/
def ExpSign.render : ExpSign → List Char
  | ExpSign.noSign => []
  | ExpSign.plusSign => ['+']
  | ExpSign.minusSign => ['-']

/-- The text of an optional fractional part. -/
def fracRender : Option (List Nat) → List Char
  | none => []
  | some ds => '.' :: renderDigits ds

/-- The text of an optional exponent part. -/
def expRender : Option ExpPart → List Char
  | none => []
  | some e => 'e' :: (e.sign.render ++ renderDigits e.digits)

/-- Render a number literal as its JSON text (as written by `json.dump`,
i.e. the float's `repr`, which uses a lowercase `e`). -/
def NumLit.render (n : NumLit) : List Char :=
  (if n.neg then ['-'] else []) ++ renderDigits n.intDigits
    ++ fracRender n.frac ++ expRender n.exp

/-- Take a maximal run of ASCII digits off the front of the input,
returning their values and the rest (the scanner's `[0-9]*`). -/
def takeDigits : List Char → List Nat × List Char
  | [] => ([], [])
  | c :: rest =>
      if c.isDigit then
        let p := takeDigits rest
        ((c.toNat - 48) :: p.1, p.2)
      else
        ([], c :: rest)

/-- Parse the integer-part digits after an optional minus sign, following
the scanner regex alternative `(0|[1-9][0-9]*)`: a leading `0` matches
alone, otherwise a maximal digit run. -/
def parseIntDigits : List Char → Option (List Nat × List Char)
  | [] => none
  | c :: rest =>
      if c = '0' then some ([0], rest)
      else if c.isDigit then
        let p := takeDigits rest
        some ((c.toNat - 48) :: p.1, p.2)
      else none

/-- Parse the optional fractional part `(\.[0-9]+)?`: a dot not followed
by a digit is left unconsumed (the group simply fails to match). -/
def parseFrac (cs : List Char) : Option (List Nat) × List Char :=
  match cs with
  | '.' :: d :: rest =>
      if d.isDigit then
        let p := takeDigits rest
        (some ((d.toNat - 48) :: p.1), p.2)
      else (none, cs)
  | _ => (none, cs)

/-- Parse the optional exponent part `([eE][-+]?[0-9]+)?`; as with the
fractional part, a non-matching suffix is left unconsumed. -/
def parseExp (cs : List Char) : Option ExpPart × List Char :=
  match cs with
  | e :: rest =>
      if e = 'e' ∨ e = 'E' then
        match rest with
        | s :: rest2 =>
            if s = '+' then
              match rest2 with
              | d :: rest3 =>
                  if d.isDigit then
                    let p := takeDigits rest3
                    (some ⟨ExpSign.plusSign, (d.toNat - 48) :: p.1⟩, p.2)
                  else (none, cs)
              | [] => (none, cs)
            else if s = '-' then
              match rest2 with
              | d :: rest3 =>
                  if d.isDigit then
                    let p := takeDigits rest3
                    (some ⟨ExpSign.minusSign, (d.toNat - 48) :: p.1⟩, p.2)
                  else (none, cs)
              | [] => (none, cs)
            else if s.isDigit then
              let p := takeDigits rest2
              (some ⟨ExpSign.noSign, (s.toNat - 48) :: p.1⟩, p.2)
            else (none, cs)
        | [] => (none, cs)
      else (none, cs)
  | [] => (none, cs)

/-- Parse a JSON number literal (the scanner's `NUMBER_RE` match at the
current position), returning the literal and the unconsumed rest. -/
def parseNumLit (cs : List Char) : Option (NumLit × List Char) :=
  match cs with
  | '-' :: rest =>
      match parseIntDigits rest with
      | some (ids, rest2) =>
          let f := parseFrac rest2
          let e := parseExp f.2
          some (⟨true, ids, f.1, e.1⟩, e.2)
      | none => none
  | _ =>
      match parseIntDigits cs with
      | some (ids, rest2) =>
          let f := parseFrac rest2
          let e := parseExp f.2
          some (⟨false, ids, f.1, e.1⟩, e.2)
      | none => none

/-! ### JSON string escaping (`json.encoder`, `ensure_ascii=True` default)

`json.dump` escapes `"` and `\`, uses the short escapes for the five
control characters that have them, and writes every other character
outside `0x20`–`0x7e` as `\uXXXX` (lowercase hex), splitting astral
characters into a surrogate pair. -/

/-- Lowercase hex digit character for a value below 16. -/
def hexDigitChar (d : Nat) : Char :=
  if d < 10 then Char.ofNat (48 + d) else Char.ofNat (87 + d)

/-- The value of a hex digit character, if it is one (`0-9a-fA-F`). -/
def hexVal (c : Char) : Option Nat :=
  if c.isDigit then some (c.toNat - 48)
  else if 97 ≤ c.toNat ∧ c.toNat ≤ 102 then some (c.toNat - 87)
  else if 65 ≤ c.toNat ∧ c.toNat ≤ 70 then some (c.toNat - 55)
  else none

/-- The four hex digits of a value below `0x10000`, most significant
first. -/
def hex4 (n : Nat) : List Char :=
  [hexDigitChar (n / 4096 % 16), hexDigitChar (n / 256 % 16),
   hexDigitChar (n / 16 % 16), hexDigitChar (n % 16)]

/-- A `\uXXXX` escape sequence. -/
def uEscape (n : Nat) : List Char := '\\' :: 'u' :: hex4 n

/-- Escape one character the way `json.dump` (with the default
`ensure_ascii=True`) writes it inside a string literal. -/
def escapeChar (c : Char) : List Char :=
  if c = '"' then ['\\', '"']
  else if c = '\\' then ['\\', '\\']
  else if c = Char.ofNat 8 then ['\\', 'b']
  else if c = Char.ofNat 12 then ['\\', 'f']
  else if c = '\n' then ['\\', 'n']
  else if c = '\r' then ['\\', 'r']
  else if c = '\t' then ['\\', 't']
  else if c.toNat < 32 ∨ c.toNat ≥ 127 then
    if c.toNat < 65536 then uEscape c.toNat
    else
      uEscape (55296 + (c.toNat - 65536) / 1024)
        ++ uEscape (56320 + (c.toNat - 65536) % 1024)
  else [c]

/-- A whole JSON string literal: quote, escaped characters, quote. -/
def escapeString (s : List Char) : List Char :=
  '"' :: (s.map escapeChar).flatten ++ ['"']

/-- Prepend a character to the parsed prefix of a parser result. -/
def pushChar (c : Char) (p : List Char × List Char) : List Char × List Char :=
  (c :: p.1, p.2)

/-- Read exactly four hex digits (`json.decoder._decode_uXXXX`),
returning their value and the rest; `none` models the raised
`Invalid \uXXXX escape`. -/
def parseHex4 : List Char → Option (Nat × List Char)
  | a :: b :: c :: d :: rest =>
      match hexVal a, hexVal b, hexVal c, hexVal d with
      | some x, some y, some z, some w => some (4096 * x + 256 * y + 16 * z + w, rest)
      | _, _, _, _ => none
  | _ => none

/-- `parseHex4` consumes exactly four characters. -/
theorem parseHex4_length : ∀ {cs : List Char} {n : Nat} {rest : List Char},
    parseHex4 cs = some (n, rest) → rest.length + 4 = cs.length := by
  intro cs n rest h
  match cs with
  | [] => simp [parseHex4] at h
  | [a] => simp [parseHex4] at h
  | [a, b] => simp [parseHex4] at h
  | [a, b, c] => simp [parseHex4] at h
  | a :: b :: c :: d :: t =>
      simp only [parseHex4] at h
      rcases hxa : hexVal a with _ | x <;> rw [hxa] at h <;>
        rcases hxb : hexVal b with _ | y <;> rw [hxb] at h <;>
          rcases hxc : hexVal c with _ | z <;> rw [hxc] at h <;>
            rcases hxd : hexVal d with _ | w <;> rw [hxd] at h <;>
              simp at h
      obtain ⟨-, h2⟩ := h
      simp [← h2]

/-- Outcome of peeking for a low-surrogate escape after a high-surrogate
`\uXXXX`: a valid pair, no `\u`-escape-with-low-surrogate there (the
scanner keeps the lone high surrogate and resumes), or a `\u` escape
with invalid hex digits (a scan error). -/
inductive LowSurr
  | pair (m : Nat) (rest : List Char)
  | noPair
  | badHex
deriving DecidableEq, Repr

/-- The scanner's peek after a high surrogate: combine only when the
next two characters are `\u` and the following four hex digits form a
low surrogate. -/
def peekLowSurrogate (cs : List Char) : LowSurr :=
  match cs with
  | b1 :: u1 :: rest =>
      if b1 = '\\' ∧ u1 = 'u' then
        match parseHex4 rest with
        | some (m, rest4) =>
            if 56320 ≤ m ∧ m ≤ 57343 then LowSurr.pair m rest4 else LowSurr.noPair
        | none => LowSurr.badHex
      else LowSurr.noPair
  | _ => LowSurr.noPair

/-- A successful surrogate-pair peek consumes exactly six characters. -/
theorem peekLowSurrogate_length : ∀ {cs : List Char} {m : Nat} {rest : List Char},
    peekLowSurrogate cs = LowSurr.pair m rest → rest.length + 6 = cs.length := by
  intro cs m rest h
  match cs with
  | [] => simp [peekLowSurrogate] at h
  | [b1] => simp [peekLowSurrogate] at h
  | b1 :: u1 :: t =>
      simp only [peekLowSurrogate] at h
      by_cases hbu : b1 = '\\' ∧ u1 = 'u'
      · rw [if_pos hbu] at h
        rcases h4 : parseHex4 t with _ | ⟨n, r⟩ <;> rw [h4] at h <;> dsimp only at h
        · simp at h
        · by_cases hr : 56320 ≤ n ∧ n ≤ 57343
          · rw [if_pos hr] at h
            cases h
            have := parseHex4_length h4
            simp only [List.length_cons]
            omega
          · rw [if_neg hr] at h
            simp at h
      · rw [if_neg hbu] at h
        simp at h

/-- Parse the body of a JSON string literal after the opening quote, up
to and past the closing quote (`json.decoder.py_scanstring`, strict
mode): short escapes, `\uXXXX` escapes with surrogate-pair combination,
a raw control character is an error, any other character is literal.
A high surrogate followed by `\u` and four hex digits that do not form a
low surrogate is kept alone and scanning resumes at that second escape,
as in the Python scanner.  (Python strings can hold lone surrogates;
Lean `Char` cannot, so that unreachable-from-`escapeString` case maps
through `Char.ofNat`'s default.) -/
def parseJStringAux : List Char → Option (List Char × List Char)
  | [] => none
  | c :: rest =>
      if c = '"' then some ([], rest)
      else if c = '\\' then
        match rest with
        | [] => none
        | e :: rest2 =>
            if e = '"' then Option.map (pushChar '"') (parseJStringAux rest2)
            else if e = '\\' then Option.map (pushChar '\\') (parseJStringAux rest2)
            else if e = '/' then Option.map (pushChar '/') (parseJStringAux rest2)
            else if e = 'b' then Option.map (pushChar (Char.ofNat 8)) (parseJStringAux rest2)
            else if e = 'f' then Option.map (pushChar (Char.ofNat 12)) (parseJStringAux rest2)
            else if e = 'n' then Option.map (pushChar '\n') (parseJStringAux rest2)
            else if e = 'r' then Option.map (pushChar '\r') (parseJStringAux rest2)
            else if e = 't' then Option.map (pushChar '\t') (parseJStringAux rest2)
            else if e = 'u' then
              match h3 : parseHex4 rest2 with
              | some (n, rest3) =>
                  if 55296 ≤ n ∧ n ≤ 56319 then
                    match h4 : peekLowSurrogate rest3 with
                    | LowSurr.pair m rest4 =>
                        Option.map
                          (pushChar (Char.ofNat
                            (65536 + 1024 * (n - 55296) + (m - 56320))))
                          (parseJStringAux rest4)
                    | LowSurr.noPair =>
                        Option.map (pushChar (Char.ofNat n)) (parseJStringAux rest3)
                    | LowSurr.badHex => none
                  else
                    Option.map (pushChar (Char.ofNat n)) (parseJStringAux rest3)
              | none => none
            else none
      else if c.toNat < 32 then none
      else Option.map (pushChar c) (parseJStringAux rest)
termination_by cs => cs.length
decreasing_by
  all_goals
    first
      | (have l4 := peekLowSurrogate_length h4
         have l3 := parseHex4_length h3
         simp only [List.length_cons] at *
         omega)
      | (have l3 := parseHex4_length h3
         simp only [List.length_cons] at *
         omega)
      | (simp only [List.length_cons]; omega)

/-! ### JSON values, serialization and scanning

`JValue` models the Python values the scripts pass to `json.dump` /
`json.dumps` and get back from parsing: numbers (as their literals),
strings, booleans, `None`, lists and dicts (as ordered key/value lists;
Python dicts preserve insertion order, and on duplicate keys the last
binding wins — see `assocLast`). -/

/-- A JSON value. -/
inductive JValue
  | jnum (n : NumLit)
  | jstr (s : List Char)
  | jbool (b : Bool)
  | jnull
  | jarr (vs : List JValue)
  | jobj (kvs : List (List Char × JValue))
deriving Repr

/-- A newline followed by the indentation for `depth` nesting levels at
`indent=2` (`json.dump(..., indent=2)`). -/
def nlIndent (depth : Nat) : List Char := '\n' :: List.replicate (2 * depth) ' '

mutual

/-- Render a value the way `json.dump(obj, f, indent=2)` does: items on
their own lines, two extra spaces per nesting level, item separator `,`
and key separator `: `; empty containers render as `[]` / `{}`. -/
def dumpValue : JValue → Nat → List Char
  | JValue.jnum n, _ => n.render
  | JValue.jstr s, _ => escapeString s
  | JValue.jbool b, _ => if b then ['t', 'r', 'u', 'e'] else ['f', 'a', 'l', 's', 'e']
  | JValue.jnull, _ => ['n', 'u', 'l', 'l']
  | JValue.jarr vs, depth =>
      match vs with
      | [] => ['[', ']']
      | v :: rest => '[' :: dumpItems (v :: rest) (depth + 1) ++ nlIndent depth ++ [']']
  | JValue.jobj kvs, depth =>
      match kvs with
      | [] => ['\x7b', '\x7d']
      | kv :: rest => '\x7b' :: dumpEntries (kv :: rest) (depth + 1) ++ nlIndent depth ++ ['\x7d']

/-- The items of a nonempty list, each on its own indented line. -/
def dumpItems : List JValue → Nat → List Char
  | [], _ => []
  | v :: rest, depth =>
      nlIndent depth ++ dumpValue v depth
        ++ (if rest.isEmpty then [] else [','])
        ++ dumpItems rest depth

/-- The entries of a nonempty dict, each on its own indented line. -/
def dumpEntries : List (List Char × JValue) → Nat → List Char
  | [], _ => []
  | (k, v) :: rest, depth =>
      nlIndent depth ++ escapeString k ++ ':' :: ' ' :: dumpValue v depth
        ++ (if rest.isEmpty then [] else [','])
        ++ dumpEntries rest depth

end

mutual

/-- Render a value the way a bare `json.dumps(obj)` does: no newlines,
item separator `, ` and key separator `: `. -/
def dumpMin : JValue → List Char
  | JValue.jnum n => n.render
  | JValue.jstr s => escapeString s
  | JValue.jbool b => if b then ['t', 'r', 'u', 'e'] else ['f', 'a', 'l', 's', 'e']
  | JValue.jnull => ['n', 'u', 'l', 'l']
  | JValue.jarr vs => '[' :: dumpMinItems vs ++ [']']
  | JValue.jobj kvs => '\x7b' :: dumpMinEntries kvs ++ ['\x7d']

/-- Array items under the default `', '` separator. -/
def dumpMinItems : List JValue → List Char
  | [] => []
  | [v] => dumpMin v
  | v :: rest => dumpMin v ++ ',' :: ' ' :: dumpMinItems rest

/-- Dict entries under the default `', '` and `': '` separators. -/
def dumpMinEntries : List (List Char × JValue) → List Char
  | [] => []
  | [(k, v)] => escapeString k ++ ':' :: ' ' :: dumpMin v
  | (k, v) :: rest => escapeString k ++ ':' :: ' ' :: dumpMin v ++ ',' :: ' ' :: dumpMinEntries rest

end

/-- The JSON whitespace characters skipped between tokens. -/
def isJsonWs (c : Char) : Bool :=
  c = ' ' || c = '\t' || c = '\n' || c = '\r'

/-- Drop leading JSON whitespace. -/
def skipWs : List Char → List Char
  | [] => []
  | c :: rest => if isJsonWs c then skipWs rest else c :: rest

/-- Does `pre` occur literally at the front of `cs`? -/
def startsWith : List Char → List Char → Bool
  | [], _ => true
  | _ :: _, [] => false
  | p :: ps, c :: rest => p = c && startsWith ps rest

mutual

/-- One step of the scanner (`json.scanner.py_make_scanner._scan_once`):
dispatch on the first character to a string, object, array, literal
name, or number.  `fuel` bounds the recursion (the Python scanner is
bounded by the interpreter recursion limit); every recursive call in
this mutual block decreases it. -/
def scanOnce : Nat → List Char → Option (JValue × List Char)
  | 0, _ => none
  | _ + 1, [] => none
  | fuel + 1, c :: rest =>
      if c = '"' then
        Option.map (fun p => (JValue.jstr p.1, p.2)) (parseJStringAux rest)
      else if c = '\x7b' then
        match skipWs rest with
        | '\x7d' :: rest2 => some (JValue.jobj [], rest2)
        | cs2 => Option.map (fun p => (JValue.jobj p.1, p.2)) (scanObjectItems fuel cs2)
      else if c = '[' then
        match skipWs rest with
        | ']' :: rest2 => some (JValue.jarr [], rest2)
        | cs2 => Option.map (fun p => (JValue.jarr p.1, p.2)) (scanArrayItems fuel cs2)
      else if c = 'n' ∧ startsWith ['u', 'l', 'l'] rest then
        some (JValue.jnull, rest.drop 3)
      else if c = 't' ∧ startsWith ['r', 'u', 'e'] rest then
        some (JValue.jbool true, rest.drop 3)
      else if c = 'f' ∧ startsWith ['a', 'l', 's', 'e'] rest then
        some (JValue.jbool false, rest.drop 4)
      else
        Option.map (fun p => (JValue.jnum p.1, p.2)) (parseNumLit (c :: rest))

/-- The scanner's array loop (`json.decoder.JSONArray`), entered on a
nonempty array with leading whitespace already skipped: scan a value,
skip whitespace, then expect `]` to finish or `,` to continue. -/
def scanArrayItems : Nat → List Char → Option (List JValue × List Char)
  | 0, _ => none
  | fuel + 1, cs => do
      let (v, rest) ← scanOnce fuel cs
      match skipWs rest with
      | ']' :: rest2 => some ([v], rest2)
      | ',' :: rest2 =>
          Option.map (fun p => (v :: p.1, p.2)) (scanArrayItems fuel (skipWs rest2))
      | _ => none

/-- The scanner's object loop (`json.decoder.JSONObject`, strict), entered
on a nonempty object with leading whitespace already skipped: a `"`-quoted
key, whitespace, `:`, whitespace, a value, whitespace, then `}` to finish
or `,` and whitespace to continue with the next key. -/
def scanObjectItems : Nat → List Char → Option (List (List Char × JValue) × List Char)
  | 0, _ => none
  | fuel + 1, cs =>
      match cs with
      | '"' :: rest => do
          let (k, rest2) ← parseJStringAux rest
          match skipWs rest2 with
          | ':' :: rest3 => do
              let (v, rest4) ← scanOnce fuel (skipWs rest3)
              match skipWs rest4 with
              | '\x7d' :: rest5 => some ([(k, v)], rest5)
              | ',' :: rest5 =>
                  Option.map (fun p => ((k, v) :: p.1, p.2))
                    (scanObjectItems fuel (skipWs rest5))
              | _ => none
          | _ => none
      | _ => none

end

/-- `json.loads` (and `json.load`) on a document: skip leading
whitespace, scan one value, and require only whitespace after it
("Extra data" otherwise).  The recursion budget is the input length
plus one, which every document that parses at all stays within. -/
def jsonLoads (cs : List Char) : Option JValue :=
  match scanOnce (cs.length + 1) (skipWs cs) with
  | some (v, rest) => if (skipWs rest).isEmpty then some v else none
  | none => none

/-- Python dict lookup on an insertion-ordered key/value list: the last
binding of the key wins. -/
def assocLast (kvs : List (List Char × JValue)) (k : List Char) : Option JValue :=
  kvs.foldl (fun acc kv => if kv.1 = k then some kv.2 else acc) none

/-! ### Segments and normalization -/

/-- Python `str.strip()` whitespace test, on the ASCII whitespace
characters (space, tab, newline, carriage return, vertical tab, form
feed).  Python also strips the other Unicode whitespace code points;
none of the properties below depend on that difference. -/
def isPySpace (c : Char) : Bool :=
  c = ' ' || c = '\t' || c = '\n' || c = '\r' || c = Char.ofNat 11 || c = Char.ofNat 12

/-- Python `str.strip()`: drop whitespace from both ends. -/
def pyStrip (s : List Char) : List Char :=
  (s.dropWhile isPySpace).rdropWhile isPySpace

/-- A transcription segment as the scripts build it: the `start` and
`end` timestamps of the whisper segment (floats, represented by their
decimal literals — see `NumLit`) and the segment text.  `end` is a Lean
keyword, so the field is named `endT`. -/
structure Segment where
  start : NumLit
  endT : NumLit
  text : List Char
deriving DecidableEq, Repr

/-- The per-segment normalization both scripts apply to the whisper
output: keep `start` and `end`, strip the text
(`seg["text"].strip()`). -/
def normalizeSeg (s : Segment) : Segment :=
  ⟨s.start, s.endT, pyStrip s.text⟩

/-- The segment list both scripts build from `result["segments"]`. -/
def normalizeSegments (raw : List Segment) : List Segment :=
  raw.map normalizeSeg

/-- The result dict `model.transcribe` returns, restricted to the keys
the scripts read: `text`, `segments`, `language`. -/
structure RawResult where
  text : List Char
  segments : List Segment
  language : List Char
deriving DecidableEq, Repr

/-- The dict `{"start": ..., "end": ..., "text": ...}` built for one
segment, with that insertion order. -/
def Segment.json (s : Segment) : JValue :=
  JValue.jobj
    [("start".toList, JValue.jnum s.start),
     ("end".toList, JValue.jnum s.endT),
     ("text".toList, JValue.jstr s.text)]

/-- The list of segment dicts passed to `json.dump`. -/
def segmentsJson (segs : List Segment) : JValue :=
  JValue.jarr (segs.map Segment.json)

/-- The exact file content `json.dump(segments, f, indent=2)` writes in
`src/tools/transcribe.py`. -/
def dumpSegments (segs : List Segment) : List Char :=
  dumpValue (segmentsJson segs) 0

/-! ### The file-writing CLI (`main` in `src/tools/transcribe.py`) -/

/-- The parsed CLI arguments of `src/tools/transcribe.py`. -/
structure Args where
  input : String
  output : String
  model : String
  force_cpu : Bool
  save_txt : Option String
deriving DecidableEq, Repr

/-- Oracles for the external calls `main` makes.  `importOk = false`
models `import whisper` raising `ImportError`; `load m d` models
`whisper.load_model(m, device=d)`; `transcribeResult` models
`model.transcribe(input)`; `jsonWrite` / `txtWrite` model the two
`open`-and-write blocks (`Except.error e` is a raised `OSError` with
message `e`). -/
structure WhisperEnv where
  importOk : Bool
  load : String → Device → Except String Unit
  transcribeResult : Except String RawResult
  jsonWrite : Except String Unit
  txtWrite : Except String Unit

/-- The observable behaviour of one run of `main`: exit status, stderr
lines in order, the `load_model` calls made (with their arguments, in
order), the number of `transcribe` calls, which of the two output
writes were attempted (`"json"`, `"txt"`, in order), and the JSON file
content on a completed JSON write. -/
structure MainTrace where
  exitCode : Nat
  stderrLog : List String
  loadCalls : List (String × Device)
  transcribeCalls : Nat
  writesAttempted : List String
  jsonFileContent : Option (List Char)
deriving DecidableEq, Repr

/-- Embedding of `main` in `src/tools/transcribe.py`.  The structure
mirrors the source: the existence check exits first; the device is
chosen; then one `try` block imports whisper, loads the model once,
transcribes once, writes the JSON file, and writes the text file only
when `--save-txt` was given; `except ImportError` and
`except Exception` print to stderr and `sys.exit(1)`. -/
def mainRun (args : Args) (inputExists : Bool) (torch : TorchProbe)
    (env : WhisperEnv) : MainTrace :=
  if !inputExists then
    { exitCode := 1
      stderrLog := ["Error: Input file not found: " ++ args.input]
      loadCalls := []
      transcribeCalls := 0
      writesAttempted := []
      jsonFileContent := none }
  else
    let dev := get_safe_device args.force_cpu torch
    let log0 := dev.2
      ++ ["[PY] Loading Whisper model '" ++ args.model ++ "' on " ++ dev.1.str ++ "..."]
    if !env.importOk then
      { exitCode := 1
        stderrLog := log0
          ++ ["Error: 'openai-whisper' package not installed. Run: pip install openai-whisper"]
        loadCalls := []
        transcribeCalls := 0
        writesAttempted := []
        jsonFileContent := none }
    else
      match env.load args.model dev.1 with
      | Except.error e =>
          { exitCode := 1
            stderrLog := log0 ++ ["Error during transcription: " ++ e]
            loadCalls := [(args.model, dev.1)]
            transcribeCalls := 0
            writesAttempted := []
            jsonFileContent := none }
      | Except.ok _ =>
          let log1 := log0 ++ ["[PY] Transcribing..."]
          match env.transcribeResult with
          | Except.error e =>
              { exitCode := 1
                stderrLog := log1 ++ ["Error during transcription: " ++ e]
                loadCalls := [(args.model, dev.1)]
                transcribeCalls := 1
                writesAttempted := []
                jsonFileContent := none }
          | Except.ok raw =>
              let segments := normalizeSegments raw.segments
              match env.jsonWrite with
              | Except.error e =>
                  { exitCode := 1
                    stderrLog := log1 ++ ["Error during transcription: " ++ e]
                    loadCalls := [(args.model, dev.1)]
                    transcribeCalls := 1
                    writesAttempted := ["json"]
                    jsonFileContent := none }
              | Except.ok _ =>
                  match args.save_txt with
                  | none =>
                      { exitCode := 0
                        stderrLog := log1
                          ++ ["[PY] Transcription complete. "
                              ++ toString segments.length ++ " segments."]
                        loadCalls := [(args.model, dev.1)]
                        transcribeCalls := 1
                        writesAttempted := ["json"]
                        jsonFileContent := some (dumpSegments segments) }
                  | some _ =>
                      match env.txtWrite with
                      | Except.error e =>
                          { exitCode := 1
                            stderrLog := log1 ++ ["Error during transcription: " ++ e]
                            loadCalls := [(args.model, dev.1)]
                            transcribeCalls := 1
                            writesAttempted := ["json", "txt"]
                            jsonFileContent := some (dumpSegments segments) }
                      | Except.ok _ =>
                          { exitCode := 0
                            stderrLog := log1
                              ++ ["[PY] Transcription complete. "
                                  ++ toString segments.length ++ " segments."]
                            loadCalls := [(args.model, dev.1)]
                            transcribeCalls := 1
                            writesAttempted := ["json", "txt"]
                            jsonFileContent := some (dumpSegments segments) }

/-! ### The stdout-JSON bridge (`src/scripts/transcribe_bridge.py`) -/

/-- How a bridge process run ends: a normal `sys.exit`/fall-off-the-end
with a code, or an uncaught exception (the interpreter prints a
traceback and the process exits abnormally). -/
inductive ProcEnd
  | exited (code : Nat)
  | raised (msg : String)
deriving DecidableEq, Repr

/-- Oracles for the bridge's external calls: `whisper.load_model("base")`
and `model.transcribe(video_path)`. -/
structure BridgeEnv where
  load : Except String Unit
  transcribeResult : Except String RawResult

/-- The observable behaviour of one bridge run: the JSON documents
printed to stdout (in order), the stderr lines, how the process ended,
and the files it wrote (always none — the script has no file writes). -/
structure BridgeTrace where
  stdoutDocs : List (List Char)
  stderrLog : List String
  outcome : ProcEnd
  filesWritten : List String
deriving DecidableEq, Repr

/-- The compact JSON document `json.dumps({"error": msg})`. -/
def errorDoc (msg : List Char) : List Char :=
  dumpMin (JValue.jobj [("error".toList, JValue.jstr msg)])

/-- The compact success document
`json.dumps({"text": ..., "segments": [...], "language": ...})` with
the bridge's key order and per-segment text stripping. -/
def bridgeDoc (raw : RawResult) : List Char :=
  dumpMin (JValue.jobj
    [("text".toList, JValue.jstr raw.text),
     ("segments".toList, segmentsJson (normalizeSegments raw.segments)),
     ("language".toList, JValue.jstr raw.language)])

/-- Embedding of the `__main__` block plus `transcribe` of
`src/scripts/transcribe_bridge.py`.  A missing argument prints a usage
JSON and exits 1; a missing file prints an error JSON and the script
falls off the end with exit 0; `load_model` and `transcribe` are *not*
inside any `try`, so their failures are uncaught exceptions. -/
def bridgeMain (hasArg : Bool) (pathArg : String) (pathExists : Bool)
    (env : BridgeEnv) : BridgeTrace :=
  if !hasArg then
    { stdoutDocs := [errorDoc "Usage: python transcribe_bridge.py <video_path>".toList]
      stderrLog := []
      outcome := ProcEnd.exited 1
      filesWritten := [] }
  else if !pathExists then
    { stdoutDocs := [errorDoc "File not found".toList]
      stderrLog := []
      outcome := ProcEnd.exited 0
      filesWritten := [] }
  else
    let log0 := ["Loading Whisper model..."]
    match env.load with
    | Except.error e =>
        { stdoutDocs := []
          stderrLog := log0
          outcome := ProcEnd.raised e
          filesWritten := [] }
    | Except.ok _ =>
        let log1 := log0 ++ ["Transcribing " ++ pathArg ++ "..."]
        match env.transcribeResult with
        | Except.error e =>
            { stdoutDocs := []
              stderrLog := log1
              outcome := ProcEnd.raised e
              filesWritten := [] }
        | Except.ok raw =>
            { stdoutDocs := [bridgeDoc raw]
              stderrLog := log1
              outcome := ProcEnd.exited 0
              filesWritten := [] }

/-! ### Concrete sample inputs used by witnesses and counterexamples -/

/-- An available GPU reporting compute capability `sm_120`. -/
def probeBlackwell : TorchProbe :=
  ⟨true, Except.ok ⟨12, 0, "NVIDIA GeForce RTX 5090"⟩⟩

/-- An available GPU reporting compute capability `sm_89`. -/
def probeAda : TorchProbe :=
  ⟨true, Except.ok ⟨8, 9, "NVIDIA GeForce RTX 4090"⟩⟩

/-- A probe whose `get_device_properties` call raises. -/
def probeRaises : TorchProbe :=
  ⟨true, Except.error "CUDA unknown error"⟩

/-- A machine with no accelerator (`torch.cuda.is_available()` false). -/
def probeNoGpu : TorchProbe :=
  ⟨false, Except.error "no device"⟩

/-- Standard CLI arguments, no `--save-txt`. -/
def argsStd : Args := ⟨"in.mp4", "out.json", "medium", false, none⟩

/-- CLI arguments with `--save-txt`. -/
def argsTxt : Args := ⟨"in.mp4", "out.json", "medium", false, some "out.txt"⟩

/-- A small transcription result. -/
def rawSmall : RawResult :=
  ⟨"  hello world".toList,
   [⟨⟨false, [0], some [0], none⟩, ⟨false, [1], some [2], none⟩, "  hello ".toList⟩,
    ⟨⟨false, [1], some [2], none⟩, ⟨false, [2], some [5], none⟩, "world".toList⟩],
   "en".toList⟩

/-! ### Claim theorems: device selection -/

/-- Claim C5: with `force_cpu` set, `get_safe_device` returns `"cpu"`
regardless of the probe, and with no accelerator available it also
returns `"cpu"`. -/
theorem claim_C5 (fc : Bool) (t : TorchProbe) :
    (fc = true → (get_safe_device fc t).1 = Device.cpu) ∧
    (t.cudaAvailable = false → (get_safe_device fc t).1 = Device.cpu) := by
  constructor <;> intro h <;> simp [get_safe_device, h]

/-- Witness for C5 at concrete probes. -/
theorem claim_C5_witness :
    (get_safe_device true probeBlackwell).1 = Device.cpu ∧
    (get_safe_device false probeNoGpu).1 = Device.cpu :=
  ⟨(claim_C5 true probeBlackwell).1 rfl, (claim_C5 false probeNoGpu).2 rfl⟩

/-- Claim C6: when the property probe raises, `get_safe_device` returns
`"cpu"` (the exception is absorbed — the embedding is total, so nothing
propagates), and in the reachable raising branch it prints the
diagnostic line to stderr. -/
theorem claim_C6 (fc : Bool) (t : TorchProbe) (e : String)
    (hp : t.props = Except.error e) :
    (get_safe_device fc t).1 = Device.cpu ∧
    (fc = false → t.cudaAvailable = true →
      (get_safe_device fc t).2 = ["[PY] GPU detection failed: " ++ e ++ ", using CPU"]) := by
  constructor
  · by_cases hfc : fc = true
    · simp [get_safe_device, hfc]
    · by_cases hav : t.cudaAvailable = true
      · simp [get_safe_device, hfc, hav, hp]
      · have hav' : t.cudaAvailable = false := by simpa using hav
        simp [get_safe_device, hav']
  · intro hfc hav
    simp [get_safe_device, hfc, hav, hp]

/-- Witness for C6 at a concrete raising probe. -/
theorem claim_C6_witness :
    (get_safe_device false probeRaises).1 = Device.cpu ∧
    (get_safe_device false probeRaises).2 =
      ["[PY] GPU detection failed: " ++ "CUDA unknown error" ++ ", using CPU"] :=
  ⟨(claim_C6 false probeRaises "CUDA unknown error" rfl).1,
   (claim_C6 false probeRaises "CUDA unknown error" rfl).2 rfl rfl⟩

/-- Counterexample to claim C1: on a probe reporting compute capability
`sm_120` (in the "unsupported" set named by the claim), the code returns
`"cuda"`, not `"cpu"` — the `compute_cap >= 120` branch prints an INFO
line and then returns `"cuda"`. -/
theorem claim_C1_counterexample :
    (get_safe_device false probeBlackwell).1 = Device.cuda ∧
    Device.cuda ≠ Device.cpu :=
  ⟨rfl, by decide⟩

/-- Claim C1 as amended: for a probe whose compute capability is at
least 120 (accelerator present, no `force_cpu`), `get_safe_device`
returns `"cuda"` and emits a diagnostic line to the error stream. -/
theorem claim_C1_amended (fc : Bool) (t : TorchProbe) (p : DeviceProps)
    (hfc : fc = false) (hav : t.cudaAvailable = true)
    (hp : t.props = Except.ok p) (hcap : 120 ≤ p.major * 10 + p.minor) :
    (get_safe_device fc t).1 = Device.cuda ∧
    (get_safe_device fc t).2 =
      ["[PY] INFO: " ++ p.name ++ " (sm_" ++ toString (p.major * 10 + p.minor)
        ++ ") detected. Attempting to use CUDA..."] := by
  simp [get_safe_device, hfc, hav, hp, hcap]

/-- Witness for the amended C1 at the `sm_120` probe. -/
theorem claim_C1_witness :
    (get_safe_device false probeBlackwell).1 = Device.cuda ∧
    (get_safe_device false probeBlackwell).2 =
      ["[PY] INFO: " ++ "NVIDIA GeForce RTX 5090" ++ " (sm_" ++ toString (12 * 10 + 0 : Int)
        ++ ") detected. Attempting to use CUDA..."] :=
  claim_C1_amended false probeBlackwell ⟨12, 0, "NVIDIA GeForce RTX 5090"⟩
    rfl rfl rfl (by decide)

/-! ### Claim theorems: the file-writing invoker -/

/-- An environment in which everything succeeds. -/
def envOk : WhisperEnv :=
  ⟨true, fun _ _ => Except.ok (), Except.ok rawSmall, Except.ok (), Except.ok ()⟩

/-- An environment in which every model load fails. -/
def envLoadFail : WhisperEnv :=
  ⟨true, fun _ _ => Except.error "CUDA out of memory",
   Except.ok rawSmall, Except.ok (), Except.ok ()⟩

/-- An environment in which `import whisper` raises `ImportError`. -/
def envNoWhisper : WhisperEnv :=
  ⟨false, fun _ _ => Except.ok (), Except.ok rawSmall, Except.ok (), Except.ok ()⟩

/-- An environment in which inference fails. -/
def envInferFail : WhisperEnv :=
  ⟨true, fun _ _ => Except.ok (), Except.error "tensor size mismatch",
   Except.ok (), Except.ok ()⟩

/-- An environment in which both file writes would fail. -/
def envWritesFail : WhisperEnv :=
  ⟨true, fun _ _ => Except.ok (), Except.ok rawSmall,
   Except.error "No space left on device", Except.error "No space left on device"⟩

/-- An environment in which only the text write fails. -/
def envTxtFail : WhisperEnv :=
  ⟨true, fun _ _ => Except.ok (), Except.ok rawSmall,
   Except.ok (), Except.error "Permission denied"⟩

/-- Claim C7: on a missing input file, `main` exits with code 1 and the
file-not-found diagnostic, having made no load call, no transcribe
call, and no write attempt. -/
theorem claim_C7 (args : Args) (torch : TorchProbe) (env : WhisperEnv) :
    (mainRun args false torch env).exitCode = 1 ∧
    (mainRun args false torch env).stderrLog
      = ["Error: Input file not found: " ++ args.input] ∧
    (mainRun args false torch env).loadCalls = [] ∧
    (mainRun args false torch env).transcribeCalls = 0 ∧
    (mainRun args false torch env).writesAttempted = [] := by
  simp [mainRun]

/-- Claim C10: when `import whisper` raises `ImportError`, `main` prints
the diagnostic naming the `openai-whisper` package as its last stderr
line and exits 1, with no load call and no write attempt. -/
theorem claim_C10 (args : Args) (torch : TorchProbe) (env : WhisperEnv)
    (h : env.importOk = false) :
    (mainRun args true torch env).exitCode = 1 ∧
    (mainRun args true torch env).stderrLog.getLast?
      = some "Error: 'openai-whisper' package not installed. Run: pip install openai-whisper" ∧
    (mainRun args true torch env).loadCalls = [] ∧
    (mainRun args true torch env).writesAttempted = [] ∧
    (mainRun args true torch env).jsonFileContent = none := by
  simp [mainRun, h]

/-- Witness for C10 in the concrete import-failure environment. -/
theorem claim_C10_witness :
    (mainRun argsStd true probeAda envNoWhisper).exitCode = 1 ∧
    (mainRun argsStd true probeAda envNoWhisper).stderrLog.getLast?
      = some "Error: 'openai-whisper' package not installed. Run: pip install openai-whisper" ∧
    (mainRun argsStd true probeAda envNoWhisper).loadCalls = [] ∧
    (mainRun argsStd true probeAda envNoWhisper).writesAttempted = [] ∧
    (mainRun argsStd true probeAda envNoWhisper).jsonFileContent = none :=
  claim_C10 argsStd probeAda envNoWhisper rfl

/-- Counterexample to claim C2: in a run whose first load on the
`"cuda"` device fails, the code makes exactly that one load call — there
is no second call on `"cpu"` — and exits 1.  The claimed retry would
leave two load calls with the second on the fallback device. -/
theorem claim_C2_counterexample :
    (mainRun argsStd true probeAda envLoadFail).loadCalls
      = [("medium", Device.cuda)] ∧
    (mainRun argsStd true probeAda envLoadFail).exitCode = 1 := by
  constructor <;> rfl

/-- Claim C2 as amended: `main` performs exactly one load attempt per
run, on the originally selected device; if that load fails it exits 1
with the error reported, without any retry; and after an inference
failure no further load occurs either (the load-call list still has the
single original entry). -/
theorem claim_C2_amended (args : Args) (torch : TorchProbe) (env : WhisperEnv)
    (e : String) (himp : env.importOk = true) :
    (env.load args.model (get_safe_device args.force_cpu torch).1 = Except.error e →
      (mainRun args true torch env).loadCalls
        = [(args.model, (get_safe_device args.force_cpu torch).1)] ∧
      (mainRun args true torch env).exitCode = 1 ∧
      (mainRun args true torch env).transcribeCalls = 0) ∧
    (env.load args.model (get_safe_device args.force_cpu torch).1 = Except.ok () →
      env.transcribeResult = Except.error e →
      (mainRun args true torch env).loadCalls
        = [(args.model, (get_safe_device args.force_cpu torch).1)] ∧
      (mainRun args true torch env).exitCode = 1) := by
  constructor
  · intro hload
    simp [mainRun, himp, hload]
  · intro hload htr
    simp [mainRun, himp, hload, htr]

/-- Witness for the amended C2: once in the load-failure environment,
once in the inference-failure environment. -/
theorem claim_C2_witness :
    ((mainRun argsStd true probeAda envLoadFail).loadCalls
        = [("medium", (get_safe_device false probeAda).1)] ∧
      (mainRun argsStd true probeAda envLoadFail).exitCode = 1 ∧
      (mainRun argsStd true probeAda envLoadFail).transcribeCalls = 0) ∧
    ((mainRun argsStd true probeAda envInferFail).loadCalls
        = [("medium", (get_safe_device false probeAda).1)] ∧
      (mainRun argsStd true probeAda envInferFail).exitCode = 1) :=
  ⟨(claim_C2_amended argsStd probeAda envLoadFail "CUDA out of memory" rfl).1 rfl,
   (claim_C2_amended argsStd probeAda envInferFail "tensor size mismatch" rfl).2 rfl rfl⟩

/-- Counterexample to claim C4: with `--save-txt` given and a failing
JSON write, only the JSON write is attempted — the text write is never
tried (the two writes sit in one `try` block), so the failures are not
independent and are not collected together. -/
theorem claim_C4_counterexample :
    (mainRun argsTxt true probeAda envWritesFail).writesAttempted = ["json"] ∧
    "txt" ∉ (mainRun argsTxt true probeAda envWritesFail).writesAttempted ∧
    (mainRun argsTxt true probeAda envWritesFail).exitCode = 1 := by
  refine ⟨rfl, ?_, rfl⟩
  intro h
  simp [mainRun, argsTxt, envWritesFail, probeAda, get_safe_device,
    normalizeSegments, rawSmall] at h

/-- Claim C4 as amended: the two writes are sequential inside a single
`try` block.  If the JSON write fails, the text write is not attempted
and the run exits 1 reporting only that failure; only when the JSON
write succeeds is the text write attempted, and its failure then exits 1
reporting that failure. -/
theorem claim_C4_amended (args : Args) (torch : TorchProbe) (env : WhisperEnv)
    (e : String) (p : String) (raw : RawResult)
    (himp : env.importOk = true)
    (hload : env.load args.model (get_safe_device args.force_cpu torch).1 = Except.ok ())
    (htr : env.transcribeResult = Except.ok raw)
    (htxt : args.save_txt = some p) :
    (env.jsonWrite = Except.error e →
      (mainRun args true torch env).writesAttempted = ["json"] ∧
      (mainRun args true torch env).exitCode = 1 ∧
      (mainRun args true torch env).stderrLog.getLast?
        = some ("Error during transcription: " ++ e)) ∧
    (env.jsonWrite = Except.ok () → env.txtWrite = Except.error e →
      (mainRun args true torch env).writesAttempted = ["json", "txt"] ∧
      (mainRun args true torch env).exitCode = 1 ∧
      (mainRun args true torch env).stderrLog.getLast?
        = some ("Error during transcription: " ++ e)) := by
  constructor
  · intro hj
    simp [mainRun, himp, hload, htr, hj]
  · intro hj ht
    simp [mainRun, himp, hload, htr, hj, htxt, ht]

/-- Witness for the amended C4: once with the JSON write failing, once
with only the text write failing. -/
theorem claim_C4_witness :
    ((mainRun argsTxt true probeAda envWritesFail).writesAttempted = ["json"] ∧
      (mainRun argsTxt true probeAda envWritesFail).exitCode = 1 ∧
      (mainRun argsTxt true probeAda envWritesFail).stderrLog.getLast?
        = some ("Error during transcription: " ++ "No space left on device")) ∧
    ((mainRun argsTxt true probeAda envTxtFail).writesAttempted = ["json", "txt"] ∧
      (mainRun argsTxt true probeAda envTxtFail).exitCode = 1 ∧
      (mainRun argsTxt true probeAda envTxtFail).stderrLog.getLast?
        = some ("Error during transcription: " ++ "Permission denied")) :=
  ⟨(claim_C4_amended argsTxt probeAda envWritesFail "No space left on device"
      "out.txt" rawSmall rfl rfl rfl rfl).1 rfl,
   (claim_C4_amended argsTxt probeAda envTxtFail "Permission denied"
      "out.txt" rawSmall rfl rfl rfl rfl).2 rfl rfl⟩

/-! ### Claim theorems: the stdout-JSON bridge -/

/-- A bridge environment whose model load raises. -/
def benvLoadFail : BridgeEnv :=
  ⟨Except.error "CUDA error: out of memory", Except.ok rawSmall⟩

/-- A bridge environment whose inference raises. -/
def benvInferFail : BridgeEnv :=
  ⟨Except.ok (), Except.error "tensor size mismatch"⟩

/-- A bridge environment in which everything succeeds. -/
def benvOk : BridgeEnv := ⟨Except.ok (), Except.ok rawSmall⟩

/-- Counterexample to claim C3: on a model-load error the bridge does
not print any JSON document and does not exit 0 — the exception from
`whisper.load_model` is uncaught (there is no `try` around it), so the
process terminates abnormally. -/
theorem claim_C3_counterexample :
    (bridgeMain true "video.mp4" true benvLoadFail).stdoutDocs = [] ∧
    (bridgeMain true "video.mp4" true benvLoadFail).outcome
      = ProcEnd.raised "CUDA error: out of memory" ∧
    (bridgeMain true "video.mp4" true benvLoadFail).outcome ≠ ProcEnd.exited 0 := by
  refine ⟨rfl, rfl, ?_⟩
  intro h
  simp [bridgeMain, benvLoadFail] at h

/-- Claim C3 as amended: the bridge never writes files, and on a
*missing input file* it prints exactly one JSON document (the `error`
document) on stdout and exits 0; but a model-load or inference error is
an uncaught exception — the run ends `raised`, with nothing printed to
stdout, not with exit code 0. -/
theorem claim_C3_amended (pathArg : String) (pathExists : Bool)
    (env : BridgeEnv) (e : String) :
    (bridgeMain true pathArg pathExists env).filesWritten = [] ∧
    (pathExists = false →
      (bridgeMain true pathArg pathExists env).stdoutDocs
        = [errorDoc "File not found".toList] ∧
      (bridgeMain true pathArg pathExists env).outcome = ProcEnd.exited 0) ∧
    (pathExists = true → env.load = Except.error e →
      (bridgeMain true pathArg pathExists env).stdoutDocs = [] ∧
      (bridgeMain true pathArg pathExists env).outcome = ProcEnd.raised e) ∧
    (pathExists = true → env.load = Except.ok () →
      env.transcribeResult = Except.error e →
      (bridgeMain true pathArg pathExists env).stdoutDocs = [] ∧
      (bridgeMain true pathArg pathExists env).outcome = ProcEnd.raised e) := by
  refine ⟨?_, ?_, ?_, ?_⟩
  · rcases pathExists with _ | _
    · simp [bridgeMain]
    · simp only [bridgeMain]
      rcases env.load with he | hu
      · simp
      · rcases env.transcribeResult with he2 | hr <;> simp
  · intro h
    simp [bridgeMain, h]
  · intro h hl
    simp [bridgeMain, h, hl]
  · intro h hl ht
    simp [bridgeMain, h, hl, ht]

/-- Witness for the amended C3: the missing-file run, the load-failure
run and the inference-failure run, all concrete. -/
theorem claim_C3_witness :
    (bridgeMain true "video.mp4" false benvOk).stdoutDocs
      = [errorDoc "File not found".toList] ∧
    (bridgeMain true "video.mp4" false benvOk).outcome = ProcEnd.exited 0 ∧
    (bridgeMain true "video.mp4" true benvLoadFail).outcome
      = ProcEnd.raised "CUDA error: out of memory" ∧
    (bridgeMain true "video.mp4" true benvInferFail).outcome
      = ProcEnd.raised "tensor size mismatch" ∧
    (bridgeMain true "video.mp4" true benvOk).filesWritten = [] :=
  ⟨((claim_C3_amended "video.mp4" false benvOk "").2.1 rfl).1,
   ((claim_C3_amended "video.mp4" false benvOk "").2.1 rfl).2,
   ((claim_C3_amended "video.mp4" true benvLoadFail
      "CUDA error: out of memory").2.2.1 rfl rfl).2,
   ((claim_C3_amended "video.mp4" true benvInferFail
      "tensor size mismatch").2.2.2 rfl rfl rfl).2,
   (claim_C3_amended "video.mp4" true benvOk "").1⟩

/-! ### Claim theorems: segment normalization -/

/-- Stripping is idempotent: a stripped text has no leading or trailing
whitespace left to strip. -/
theorem pyStrip_idem (s : List Char) : pyStrip (pyStrip s) = pyStrip s := by
  unfold pyStrip
  have h1 : ((s.dropWhile isPySpace).rdropWhile isPySpace).dropWhile isPySpace
      = (s.dropWhile isPySpace).rdropWhile isPySpace := by
    rw [List.dropWhile_eq_self_iff]
    intro hl hp
    have hpre := List.rdropWhile_prefix isPySpace (s.dropWhile isPySpace)
    have hlen : 0 < (s.dropWhile isPySpace).length :=
      lt_of_lt_of_le hl hpre.length_le
    have hget := hpre.getElem hl
    have hne : s.dropWhile isPySpace ≠ [] := by
      intro hnil
      rw [hnil] at hlen
      simp at hlen
    have hhead := List.head_dropWhile_not isPySpace s hne
    rw [List.get_eq_getElem, hget, ← List.head_eq_getElem_zero hne] at hp
    rw [hp] at hhead
    exact absurd hhead (by simp)
  rw [h1, List.rdropWhile_idempotent]

/-- Claim C8: normalization preserves the number and order of segments,
passes both timestamps of each segment through unchanged, strips each
segment's text, and the resulting texts carry no leading or trailing
whitespace (stripping them again changes nothing). -/
theorem claim_C8 (raw : List Segment) :
    (normalizeSegments raw).length = raw.length ∧
    ∀ i (h : i < raw.length),
      (normalizeSegments raw).get ⟨i, by simpa [normalizeSegments] using h⟩
        = ⟨(raw.get ⟨i, h⟩).start, (raw.get ⟨i, h⟩).endT,
           pyStrip (raw.get ⟨i, h⟩).text⟩ ∧
      pyStrip ((normalizeSegments raw).get
          ⟨i, by simpa [normalizeSegments] using h⟩).text
        = ((normalizeSegments raw).get
            ⟨i, by simpa [normalizeSegments] using h⟩).text := by
  refine ⟨by simp [normalizeSegments], fun i h => ⟨?_, ?_⟩⟩
  · simp [normalizeSegments, normalizeSeg]
  · simp only [normalizeSegments, List.get_eq_getElem, List.getElem_map, normalizeSeg]
    exact pyStrip_idem _

/-- Witness for C8 on the concrete whisper output `rawSmall`, first
segment (text `"  hello "`). -/
theorem claim_C8_witness :
    (normalizeSegments rawSmall.segments).length = rawSmall.segments.length ∧
    (normalizeSegments rawSmall.segments).get ⟨0, by decide⟩
      = ⟨(rawSmall.segments.get ⟨0, by decide⟩).start,
         (rawSmall.segments.get ⟨0, by decide⟩).endT,
         pyStrip (rawSmall.segments.get ⟨0, by decide⟩).text⟩ ∧
    pyStrip ((normalizeSegments rawSmall.segments).get ⟨0, by decide⟩).text
      = ((normalizeSegments rawSmall.segments).get ⟨0, by decide⟩).text :=
  ⟨(claim_C8 rawSmall.segments).1,
   ((claim_C8 rawSmall.segments).2 0 (by decide)).1,
   ((claim_C8 rawSmall.segments).2 0 (by decide)).2⟩

/-! ### Round-trip of JSON string literals -/

/-- A `Char`'s scalar value is below the surrogate block or above it. -/
theorem char_valid_range (c : Char) :
    c.toNat < 55296 ∨ (57343 < c.toNat ∧ c.toNat < 1114112) := by
  rcases c.valid with h | ⟨h1, h2⟩
  · left
    exact h
  · right
    exact ⟨h1, h2⟩

/-- Reading back a written hex digit. -/
theorem hexVal_hexDigitChar (d : Nat) (h : d < 16) :
    hexVal (hexDigitChar d) = some d := by
  interval_cases d <;> rfl

/-- Reading back four written hex digits. -/
theorem parseHex4_hex4 (n : Nat) (h : n < 65536) (r : List Char) :
    parseHex4 (hex4 n ++ r) = some (n, r) := by
  simp only [hex4, List.cons_append, List.nil_append, parseHex4]
  rw [hexVal_hexDigitChar (n / 4096 % 16) (Nat.mod_lt _ (by omega)),
      hexVal_hexDigitChar (n / 256 % 16) (Nat.mod_lt _ (by omega)),
      hexVal_hexDigitChar (n / 16 % 16) (Nat.mod_lt _ (by omega)),
      hexVal_hexDigitChar (n % 16) (Nat.mod_lt _ (by omega))]
  dsimp only
  have he : 4096 * (n / 4096 % 16) + 256 * (n / 256 % 16) + 16 * (n / 16 % 16) + n % 16
      = n := by
    omega
  rw [he]

/-- One step of the string scanner on a `\u` escape whose value is not a
high surrogate. -/
theorem parseJStringAux_u_basic (rest2 : List Char) (n : Nat) (rest3 : List Char)
    (hph : parseHex4 rest2 = some (n, rest3)) (hn : ¬(55296 ≤ n ∧ n ≤ 56319)) :
    parseJStringAux ('\\' :: 'u' :: rest2)
      = Option.map (pushChar (Char.ofNat n)) (parseJStringAux rest3) := by
  rw [parseJStringAux.eq_def]
  dsimp only
  rw [if_neg (show ¬(('\\' : Char) = '"') by decide),
      if_pos (show ('\\' : Char) = '\\' from rfl),
      if_neg (show ¬(('u' : Char) = '"') by decide),
      if_neg (show ¬(('u' : Char) = '\\') by decide),
      if_neg (show ¬(('u' : Char) = '/') by decide),
      if_neg (show ¬(('u' : Char) = 'b') by decide),
      if_neg (show ¬(('u' : Char) = 'f') by decide),
      if_neg (show ¬(('u' : Char) = 'n') by decide),
      if_neg (show ¬(('u' : Char) = 'r') by decide),
      if_neg (show ¬(('u' : Char) = 't') by decide),
      if_pos (show ('u' : Char) = 'u' from rfl)]
  split
  · rename_i n2 rest4 heq
    rw [hph] at heq
    simp only [Option.some.injEq, Prod.mk.injEq] at heq
    obtain ⟨heqn, heqr⟩ := heq
    subst heqn
    subst heqr
    rw [if_neg hn]
  · rename_i heq
    rw [hph] at heq
    cases heq

/-- One step of the string scanner on a high-surrogate `\u` escape
followed by a valid low-surrogate escape. -/
theorem parseJStringAux_u_pair (rest2 : List Char) (n : Nat) (rest3 : List Char)
    (m : Nat) (rest4 : List Char)
    (hph : parseHex4 rest2 = some (n, rest3)) (hn : 55296 ≤ n ∧ n ≤ 56319)
    (hpk : peekLowSurrogate rest3 = LowSurr.pair m rest4) :
    parseJStringAux ('\\' :: 'u' :: rest2)
      = Option.map (pushChar (Char.ofNat (65536 + 1024 * (n - 55296) + (m - 56320))))
          (parseJStringAux rest4) := by
  rw [parseJStringAux.eq_def]
  dsimp only
  rw [if_neg (show ¬(('\\' : Char) = '"') by decide),
      if_pos (show ('\\' : Char) = '\\' from rfl),
      if_neg (show ¬(('u' : Char) = '"') by decide),
      if_neg (show ¬(('u' : Char) = '\\') by decide),
      if_neg (show ¬(('u' : Char) = '/') by decide),
      if_neg (show ¬(('u' : Char) = 'b') by decide),
      if_neg (show ¬(('u' : Char) = 'f') by decide),
      if_neg (show ¬(('u' : Char) = 'n') by decide),
      if_neg (show ¬(('u' : Char) = 'r') by decide),
      if_neg (show ¬(('u' : Char) = 't') by decide),
      if_pos (show ('u' : Char) = 'u' from rfl)]
  split
  · rename_i n2 rest3' heq
    rw [hph] at heq
    simp only [Option.some.injEq, Prod.mk.injEq] at heq
    obtain ⟨heqn, heqr⟩ := heq
    subst heqn
    subst heqr
    rw [if_pos hn]
    split
    · rename_i m2 rest4' heq2
      rw [hpk] at heq2
      simp only [LowSurr.pair.injEq] at heq2
      obtain ⟨hm, hr⟩ := heq2
      subst hm
      subst hr
      rfl
    · rename_i heq2
      rw [hpk] at heq2
      cases heq2
    · rename_i heq2
      rw [hpk] at heq2
      cases heq2
  · rename_i heq
    rw [hph] at heq
    cases heq

/-- Round-trip of the string-literal body: parsing the escaped body of
`s` followed by the closing quote yields `s` and the unconsumed rest. -/
theorem parseJStringAux_escape (s : List Char) (rest : List Char) :
    parseJStringAux ((s.map escapeChar).flatten ++ '"' :: rest) = some (s, rest) := by
  induction s generalizing rest with
  | nil =>
      simp only [List.map_nil, List.flatten_nil, List.nil_append]
      rw [parseJStringAux.eq_def]
      simp
  | cons c t ih =>
      simp only [List.map_cons, List.flatten_cons, List.append_assoc]
      by_cases h1 : c = '"'
      · subst h1
        rw [show escapeChar '"' = ['\\', '"'] from rfl]
        simp only [List.cons_append, List.nil_append]
        rw [parseJStringAux.eq_def]
        simp [ih, pushChar]
      by_cases h2 : c = '\\'
      · subst h2
        rw [show escapeChar '\\' = ['\\', '\\'] from rfl]
        simp only [List.cons_append, List.nil_append]
        rw [parseJStringAux.eq_def]
        simp [ih, pushChar]
      by_cases h3 : c = Char.ofNat 8
      · subst h3
        rw [show escapeChar (Char.ofNat 8) = ['\\', 'b'] from rfl]
        simp only [List.cons_append, List.nil_append]
        rw [parseJStringAux.eq_def]
        simp [ih, pushChar]
      by_cases h4 : c = Char.ofNat 12
      · subst h4
        rw [show escapeChar (Char.ofNat 12) = ['\\', 'f'] from rfl]
        simp only [List.cons_append, List.nil_append]
        rw [parseJStringAux.eq_def]
        simp [ih, pushChar]
      by_cases h5 : c = '\n'
      · subst h5
        rw [show escapeChar '\n' = ['\\', 'n'] from rfl]
        simp only [List.cons_append, List.nil_append]
        rw [parseJStringAux.eq_def]
        simp [ih, pushChar]
      by_cases h6 : c = '\r'
      · subst h6
        rw [show escapeChar '\r' = ['\\', 'r'] from rfl]
        simp only [List.cons_append, List.nil_append]
        rw [parseJStringAux.eq_def]
        simp [ih, pushChar]
      by_cases h7 : c = '\t'
      · subst h7
        rw [show escapeChar '\t' = ['\\', 't'] from rfl]
        simp only [List.cons_append, List.nil_append]
        rw [parseJStringAux.eq_def]
        simp [ih, pushChar]
      by_cases h8 : c.toNat < 32 ∨ c.toNat ≥ 127
      · have hesc : escapeChar c =
            (if c.toNat < 65536 then uEscape c.toNat
             else uEscape (55296 + (c.toNat - 65536) / 1024)
               ++ uEscape (56320 + (c.toNat - 65536) % 1024)) := by
          unfold escapeChar
          rw [if_neg h1, if_neg h2, if_neg h3, if_neg h4, if_neg h5, if_neg h6, if_neg h7,
              if_pos h8]
        by_cases h9 : c.toNat < 65536
        · rw [hesc, if_pos h9]
          simp only [uEscape, List.cons_append, List.append_assoc]
          have hph := parseHex4_hex4 c.toNat h9 ((t.map escapeChar).flatten ++ '"' :: rest)
          have hnosur : ¬(55296 ≤ c.toNat ∧ c.toNat ≤ 56319) := by
            rcases char_valid_range c with hv | hv <;> omega
          rw [parseJStringAux_u_basic _ _ _ hph hnosur, ih]
          simp only [Option.map, pushChar, Option.some.injEq, Prod.mk.injEq]
          exact ⟨by rw [Char.ofNat_toNat], trivial⟩
        · rw [hesc, if_neg h9]
          have hv : c.toNat < 1114112 := by
            rcases char_valid_range c with hv | hv <;> omega
          have hhi : 55296 + (c.toNat - 65536) / 1024 < 65536 := by omega
          have hlo : 56320 + (c.toNat - 65536) % 1024 < 65536 := by omega
          simp only [uEscape, List.cons_append, List.append_assoc]
          have hph := parseHex4_hex4 (55296 + (c.toNat - 65536) / 1024) hhi
            ('\\' :: 'u' :: (hex4 (56320 + (c.toNat - 65536) % 1024)
              ++ ((t.map escapeChar).flatten ++ '"' :: rest)))
          have hsur : 55296 ≤ 55296 + (c.toNat - 65536) / 1024
              ∧ 55296 + (c.toNat - 65536) / 1024 ≤ 56319 := by
            refine ⟨by omega, ?_⟩
            have hq : (c.toNat - 65536) / 1024 ≤ 1023 := by omega
            omega
          have hpk : peekLowSurrogate
              ('\\' :: 'u' :: (hex4 (56320 + (c.toNat - 65536) % 1024)
                ++ ((t.map escapeChar).flatten ++ '"' :: rest)))
              = LowSurr.pair (56320 + (c.toNat - 65536) % 1024)
                  ((t.map escapeChar).flatten ++ '"' :: rest) := by
            unfold peekLowSurrogate
            dsimp only
            rw [if_pos ⟨rfl, rfl⟩, parseHex4_hex4 _ hlo]
            dsimp only
            rw [if_pos ⟨by omega, by omega⟩]
          rw [parseJStringAux_u_pair _ _ _ _ _ hph hsur hpk, ih]
          simp only [Option.map, pushChar, Option.some.injEq, Prod.mk.injEq]
          refine ⟨?_, trivial⟩
          have harith : 65536 + 1024 * (55296 + (c.toNat - 65536) / 1024 - 55296)
              + (56320 + (c.toNat - 65536) % 1024 - 56320) = c.toNat := by
            have hdm := Nat.div_add_mod (c.toNat - 65536) 1024
            omega
          rw [harith, Char.ofNat_toNat]
      · have hesc : escapeChar c = [c] := by
          unfold escapeChar
          rw [if_neg h1, if_neg h2, if_neg h3, if_neg h4, if_neg h5, if_neg h6, if_neg h7,
              if_neg h8]
        rw [hesc]
        simp only [List.cons_append, List.nil_append]
        rw [parseJStringAux.eq_def]
        have hlt : ¬c.toNat < 32 := by omega
        simp [h1, h2, hlt, ih, pushChar]

/-- Round-trip of a whole string literal: `parseJStringAux` after the
opening quote inverts `escapeString`. -/
theorem parseJString_escapeString (s : List Char) (rest : List Char) :
    parseJStringAux (((s.map escapeChar).flatten ++ ['"']) ++ rest) = some (s, rest) := by
  rw [List.append_assoc]
  simpa using parseJStringAux_escape s rest

/-! ### Round-trip of JSON number literals -/

/-- A rendered digit reads back as a digit character. -/
theorem digitChar_isDigit (d : Nat) (h : d < 10) : (digitChar d).isDigit = true := by
  interval_cases d <;> rfl

/-- A rendered digit's value. -/
theorem digitChar_toNat (d : Nat) (h : d < 10) : (digitChar d).toNat - 48 = d := by
  interval_cases d <;> rfl

/-- Digit characters are none of the number-syntax punctuation. -/
theorem digitChar_ne (d : Nat) (h : d < 10) :
    digitChar d ≠ '-' ∧ digitChar d ≠ '+' ∧ digitChar d ≠ '.'
      ∧ digitChar d ≠ 'e' ∧ digitChar d ≠ 'E' := by
  interval_cases d <;> exact ⟨by decide, by decide, by decide, by decide, by decide⟩

/-- A nonzero digit does not render as `'0'`. -/
theorem digitChar_ne_zero (d : Nat) (h : d < 10) (h0 : d ≠ 0) : digitChar d ≠ '0' := by
  interval_cases d
  · exact absurd rfl h0
  all_goals decide

/-- The digit scanner consumes exactly a rendered digit run when the
following character is not a digit. -/
theorem takeDigits_render (ds : List Nat) (h : ∀ d ∈ ds, d < 10) (r : List Char)
    (hr : ∀ c, r.head? = some c → c.isDigit = false) :
    takeDigits (renderDigits ds ++ r) = (ds, r) := by
  induction ds with
  | nil =>
      simp only [renderDigits, List.map_nil, List.nil_append]
      match r with
      | [] => rfl
      | c :: rest =>
          have hc := hr c rfl
          rw [takeDigits, if_neg (by rw [hc]; exact Bool.false_ne_true)]
  | cons d ds ih =>
      have hd : d < 10 := h d (by simp)
      simp only [renderDigits, List.map_cons, List.cons_append]
      rw [takeDigits, if_pos (digitChar_isDigit d hd)]
      rw [show renderDigits ds = ds.map digitChar from rfl] at ih
      rw [ih (fun x hx => h x (by simp [hx]))]
      rw [digitChar_toNat d hd]

/-- The integer-part scanner reads back a rendered well-formed integer
part (single `0`, or a nonzero-led digit run). -/
theorem parseIntDigits_render (ds : List Nat) (hwf : digitsWf ds = true)
    (hlead : ds.length = 1 ∨ ds.headI ≠ 0) (r : List Char)
    (hr : ∀ c, r.head? = some c → c.isDigit = false) :
    parseIntDigits (renderDigits ds ++ r) = some (ds, r) := by
  rcases ds with _ | ⟨d, t⟩
  · simp [digitsWf] at hwf
  · have hd : d < 10 := by
      simp only [digitsWf, Bool.and_eq_true, List.all_eq_true, decide_eq_true_eq] at hwf
      exact hwf.2 d (by simp)
    have ht : ∀ x ∈ t, x < 10 := by
      simp only [digitsWf, Bool.and_eq_true, List.all_eq_true, decide_eq_true_eq] at hwf
      intro x hx
      exact hwf.2 x (by simp [hx])
    by_cases h0 : d = 0
    · subst h0
      have ht0 : t = [] := by
        rcases hlead with hl | hl
        · simpa using hl
        · simp at hl
      subst ht0
      simp only [renderDigits, List.map_cons, List.map_nil, List.cons_append,
        List.nil_append]
      rw [parseIntDigits, if_pos (show digitChar 0 = '0' from rfl)]
    · simp only [renderDigits, List.map_cons, List.cons_append]
      rw [parseIntDigits, if_neg (digitChar_ne_zero d hd h0),
        if_pos (digitChar_isDigit d hd)]
      rw [show (t.map digitChar : List Char) = renderDigits t from rfl,
        takeDigits_render t ht r hr, digitChar_toNat d hd]

/-- The fractional-part scanner reads back a rendered fractional part
when the following character is not a digit. -/
theorem parseFrac_render (ds : List Nat) (hds : digitsWf ds = true) (r : List Char)
    (hr : ∀ c, r.head? = some c → c.isDigit = false) :
    parseFrac ('.' :: renderDigits ds ++ r) = (some ds, r) := by
  rcases ds with _ | ⟨d, t⟩
  · simp [digitsWf] at hds
  · have hd : d < 10 := by
      simp only [digitsWf, Bool.and_eq_true, List.all_eq_true, decide_eq_true_eq] at hds
      exact hds.2 d (by simp)
    have ht : ∀ x ∈ t, x < 10 := by
      simp only [digitsWf, Bool.and_eq_true, List.all_eq_true, decide_eq_true_eq] at hds
      intro x hx
      exact hds.2 x (by simp [hx])
    simp only [renderDigits, List.map_cons, List.cons_append]
    rw [parseFrac.eq_def]
    split
    next d1 rest2 heq =>
      injection heq with heq1 heq2
      injection heq2 with heq2a heq2b
      subst heq2a
      subst heq2b
      rw [if_pos (digitChar_isDigit d hd)]
      rw [show (t.map digitChar : List Char) = renderDigits t from rfl,
        takeDigits_render t ht r hr, digitChar_toNat d hd]
    next hne =>
      exact (hne (digitChar d) (t.map digitChar ++ r) rfl).elim

/-- The fractional-part scanner leaves input that does not start with a
dot untouched. -/
theorem parseFrac_skip (r : List Char) (hr : ∀ c, r.head? = some c → c ≠ '.') :
    parseFrac r = (none, r) := by
  rw [parseFrac.eq_def]
  split
  next d1 rest2 =>
    exact absurd rfl (hr '.' rfl)
  next hne => rfl

/-- The exponent scanner reads back a rendered exponent part when the
following character is not a digit. -/
theorem parseExp_render (sign : ExpSign) (ds : List Nat) (hds : digitsWf ds = true)
    (r : List Char) (hr : ∀ c, r.head? = some c → c.isDigit = false) :
    parseExp ('e' :: (sign.render ++ (renderDigits ds ++ r))) = (some ⟨sign, ds⟩, r) := by
  rcases ds with _ | ⟨d, t⟩
  · simp [digitsWf] at hds
  · have hd : d < 10 := by
      simp only [digitsWf, Bool.and_eq_true, List.all_eq_true, decide_eq_true_eq] at hds
      exact hds.2 d (by simp)
    have ht : ∀ x ∈ t, x < 10 := by
      simp only [digitsWf, Bool.and_eq_true, List.all_eq_true, decide_eq_true_eq] at hds
      intro x hx
      exact hds.2 x (by simp [hx])
    have htk := takeDigits_render t ht r hr
    rw [show (renderDigits t : List Char) = t.map digitChar from rfl] at htk
    cases sign with
    | noSign =>
        simp only [ExpSign.render, List.nil_append, renderDigits, List.map_cons,
          List.cons_append]
        rw [parseExp.eq_def]
        dsimp only
        rw [if_pos (Or.inl rfl), if_neg (digitChar_ne d hd).2.1,
          if_neg (digitChar_ne d hd).1, if_pos (digitChar_isDigit d hd)]
        rw [htk, digitChar_toNat d hd]
    | plusSign =>
        simp only [ExpSign.render, List.cons_append, List.nil_append, renderDigits,
          List.map_cons]
        rw [parseExp.eq_def]
        dsimp only
        rw [if_pos (Or.inl rfl), if_pos (show ('+' : Char) = '+' from rfl),
          if_pos (digitChar_isDigit d hd)]
        rw [htk, digitChar_toNat d hd]
    | minusSign =>
        simp only [ExpSign.render, List.cons_append, List.nil_append, renderDigits,
          List.map_cons]
        rw [parseExp.eq_def]
        dsimp only
        rw [if_pos (Or.inl rfl), if_neg (show ¬(('-' : Char) = '+') by decide),
          if_pos (show ('-' : Char) = '-' from rfl), if_pos (digitChar_isDigit d hd)]
        rw [htk, digitChar_toNat d hd]

/-- The exponent scanner leaves input that does not start with `e`/`E`
untouched. -/
theorem parseExp_skip (r : List Char)
    (hr : ∀ c, r.head? = some c → c ≠ 'e' ∧ c ≠ 'E') :
    parseExp r = (none, r) := by
  rcases r with _ | ⟨c, rest⟩
  · rfl
  · rw [parseExp.eq_def]
    dsimp only
    rw [if_neg (by
      intro hor
      rcases hor with h | h
      · exact (hr c rfl).1 h
      · exact (hr c rfl).2 h)]

/-- The delimiter condition under which a number literal read stops at
the right place: the next character continues neither a digit run nor a
fractional or exponent part. -/
def numDelim (cs : List Char) : Prop :=
  ∀ c, cs.head? = some c → c.isDigit = false ∧ c ≠ '.' ∧ c ≠ 'e' ∧ c ≠ 'E'

/-- The number scanner reads back a rendered well-formed number literal
when followed by a delimiter. -/
theorem parseNumLit_render (n : NumLit) (hwf : n.wf = true) (r : List Char)
    (hr : numDelim r) :
    parseNumLit (n.render ++ r) = some (n, r) := by
  rcases n with ⟨neg, ids, frac, exp⟩
  have hwf' := hwf
  simp only [NumLit.wf, Bool.and_eq_true] at hwf'
  obtain ⟨⟨⟨hids, hlead⟩, hfracWf⟩, hexpWf⟩ := hwf'
  have hlead' : ids.length = 1 ∨ ids.headI ≠ 0 := by
    rcases Bool.or_eq_true _ _ |>.mp hlead with h | h
    · left
      exact Nat.eq_of_beq_eq_true (by simpa using h) ▸ by simpa using h
    · right
      simpa using h
  -- the input stream after the integer digits
  have hfracexp :
      parseFrac (fracRender frac ++ (expRender exp ++ r))
        = (frac, expRender exp ++ r) := by
    rcases frac with _ | ds
    · rcases exp with _ | e
      · simp only [fracRender, expRender, List.nil_append]
        exact parseFrac_skip r (fun c hc => (hr c hc).2.1)
      · simp only [fracRender, expRender, List.nil_append, List.cons_append]
        exact parseFrac_skip _ (fun c hc => by
          injection hc with hc
          rw [← hc]
          decide)
    · rcases exp with _ | e
      · simp only [fracRender, expRender, List.nil_append, List.append_nil,
          List.cons_append]
        exact parseFrac_render ds (by simpa using hfracWf) r
          (fun c hc => (hr c hc).1)
      · simp only [fracRender, expRender, List.cons_append]
        exact parseFrac_render ds (by simpa using hfracWf) _
          (fun c hc => by
            injection hc with hc
            rw [← hc]
            decide)
  have hexp : parseExp (expRender exp ++ r) = (exp, r) := by
    rcases exp with _ | e
    · simp only [expRender, List.nil_append]
      exact parseExp_skip r (fun c hc => (hr c hc).2.2)
    · rcases e with ⟨sign, eds⟩
      simp only [expRender, List.cons_append]
      simpa [List.append_assoc] using
        parseExp_render sign eds (by simpa using hexpWf) r
          (fun c hc => (hr c hc).1)
  have hint := parseIntDigits_render ids hids hlead'
    (fracRender frac ++ (expRender exp ++ r))
    (by
      rcases frac with _ | ds
      · rcases exp with _ | e
        · simp only [fracRender, expRender, List.nil_append]
          exact fun c hc => (hr c hc).1
        · simp only [fracRender, expRender, List.nil_append, List.cons_append]
          intro c hc
          injection hc with hc
          rw [← hc]
          decide
      · simp only [fracRender, List.cons_append]
        intro c hc
        injection hc with hc
        rw [← hc]
        decide)
  rcases hneg : neg with _ | _
  · simp only [NumLit.render, if_neg (by simp : ¬(false = true)), List.nil_append,
      List.append_assoc]
    rw [parseNumLit.eq_def]
    split
    next rest heq =>
      rcases ids with _ | ⟨d, t⟩
      · simp [digitsWf] at hids
      · have hd : d < 10 := by
          simp only [digitsWf, Bool.and_eq_true, List.all_eq_true, decide_eq_true_eq] at hids
          exact hids.2 d (by simp)
        simp only [renderDigits, List.map_cons, List.cons_append] at heq
        injection heq with heq1 _
        exact ((digitChar_ne d hd).1 (by rw [heq1])).elim
    next hne =>
      rw [hint]
      dsimp only
      rw [hfracexp]
      dsimp only
      rw [hexp]
  · simp only [NumLit.render, if_pos rfl, List.cons_append, List.append_assoc]
    rw [parseNumLit.eq_def]
    split
    next rest heq =>
      injection heq with _ heq2
      subst heq2
      simp only [List.append_eq, List.nil_append]
      rw [hint]
      dsimp only
      rw [hfracexp]
      dsimp only
      rw [hexp]
    next hne =>
      exact (hne _ rfl).elim

/-! ### Scanner steps over emitted documents -/

/-- Leading whitespace is skipped. -/
theorem skipWs_ws_append (l x : List Char) (h : ∀ c ∈ l, isJsonWs c = true) :
    skipWs (l ++ x) = skipWs x := by
  induction l with
  | nil => rfl
  | cons c t ih =>
      rw [List.cons_append, skipWs, if_pos (h c (by simp))]
      exact ih (fun c hc => h c (by simp [hc]))

/-- `skipWs` stops at a non-whitespace head. -/
theorem skipWs_nonWs (c : Char) (x : List Char) (h : isJsonWs c = false) :
    skipWs (c :: x) = c :: x := by
  rw [skipWs, if_neg (by rw [h]; exact Bool.false_ne_true)]

/-- An indent-newline block is all whitespace. -/
theorem skipWs_nlIndent (d : Nat) (x : List Char) :
    skipWs (nlIndent d ++ x) = skipWs x := by
  apply skipWs_ws_append
  intro c hc
  simp only [nlIndent, List.mem_cons, List.mem_replicate] at hc
  rcases hc with hc | ⟨-, hc⟩ <;> subst hc <;> rfl

/-- A rendered number starts with a minus sign or a digit, never with
whitespace. -/
theorem skipWs_numRender (n : NumLit) (hwf : n.wf = true) (y : List Char) :
    skipWs (n.render ++ y) = n.render ++ y := by
  rcases n with ⟨neg, ids, frac, exp⟩
  rcases ids with _ | ⟨d, t⟩
  · simp only [NumLit.wf, digitsWf, List.isEmpty_nil, Bool.not_true, Bool.false_and,
      Bool.and_eq_true, Bool.false_eq_true, false_and] at hwf
  · have hd : d < 10 := by
      simp only [NumLit.wf, digitsWf, Bool.and_eq_true, List.all_eq_true,
        decide_eq_true_eq] at hwf
      exact hwf.1.1.1.2 d (by simp)
    rcases neg with _ | _
    · simp only [NumLit.render, Bool.false_eq_true, if_neg, List.nil_append,
        renderDigits, List.map_cons, List.cons_append, List.append_assoc]
      apply skipWs_nonWs
      interval_cases d <;> rfl
    · simp only [NumLit.render, if_pos, List.cons_append, List.append_assoc]
      exact skipWs_nonWs '-' _ rfl

/-- A string literal starts with a quote, never with whitespace. -/
theorem skipWs_strRender (s : List Char) (y : List Char) :
    skipWs (escapeString s ++ y) = escapeString s ++ y := by
  simp only [escapeString, List.cons_append]
  exact skipWs_nonWs '"' _ rfl

/-- Scanner dispatch on a string literal. -/
theorem scanOnce_str (f : Nat) (s : List Char) (r : List Char) :
    scanOnce (f + 1) (escapeString s ++ r) = some (JValue.jstr s, r) := by
  simp only [escapeString, List.cons_append]
  rw [scanOnce.eq_def]
  dsimp only
  rw [if_pos rfl, parseJString_escapeString s r]
  rfl

/-- Scanner dispatch on a number literal. -/
theorem scanOnce_num (f : Nat) (n : NumLit) (hwf : n.wf = true) (r : List Char)
    (hr : numDelim r) :
    scanOnce (f + 1) (n.render ++ r) = some (JValue.jnum n, r) := by
  have hp := parseNumLit_render n hwf r hr
  rcases n with ⟨neg, ids, frac, exp⟩
  rcases ids with _ | ⟨d, t⟩
  · simp only [NumLit.wf, digitsWf, List.isEmpty_nil, Bool.not_true, Bool.false_and,
      Bool.and_eq_true, Bool.false_eq_true, false_and] at hwf
  · have hd : d < 10 := by
      simp only [NumLit.wf, digitsWf, Bool.and_eq_true, List.all_eq_true,
        decide_eq_true_eq] at hwf
      exact hwf.1.1.1.2 d (by simp)
    rcases neg with _ | _
    · rw [show ({ neg := false, intDigits := d :: t, frac := frac, exp := exp }
            : NumLit).render
          = digitChar d :: (renderDigits t ++ fracRender frac ++ expRender exp) by
        simp [NumLit.render, renderDigits, List.append_assoc]]
      rw [List.cons_append]
      rw [scanOnce.eq_def]
      dsimp only
      have hne : ∀ x : Char, digitChar d = x →
          (digitChar d = '"' → False) ∧ (digitChar d = '\x7b' → False)
            ∧ (digitChar d = '[' → False) ∧ (digitChar d = 'n' → False)
            ∧ (digitChar d = 't' → False) ∧ (digitChar d = 'f' → False) := by
        intro x _
        interval_cases d <;>
          exact ⟨by decide, by decide, by decide, by decide, by decide, by decide⟩
      rw [if_neg ((hne (digitChar d) rfl).1),
        if_neg ((hne (digitChar d) rfl).2.1),
        if_neg ((hne (digitChar d) rfl).2.2.1),
        if_neg (fun hh => ((hne (digitChar d) rfl).2.2.2.1) hh.1),
        if_neg (fun hh => ((hne (digitChar d) rfl).2.2.2.2.1) hh.1),
        if_neg (fun hh => ((hne (digitChar d) rfl).2.2.2.2.2) hh.1)]
      have hp2 : parseNumLit
          (digitChar d :: (renderDigits t ++ fracRender frac ++ expRender exp ++ r))
          = some (({ neg := false, intDigits := d :: t, frac := frac, exp := exp }
              : NumLit), r) := by
        rw [show (digitChar d :: (renderDigits t ++ fracRender frac ++ expRender exp ++ r))
            = ({ neg := false, intDigits := d :: t, frac := frac, exp := exp }
                : NumLit).render ++ r by
          simp [NumLit.render, renderDigits, List.append_assoc]]
        exact hp
      rw [hp2]
      rfl
    · rw [show ({ neg := true, intDigits := d :: t, frac := frac, exp := exp }
            : NumLit).render
          = '-' :: (renderDigits (d :: t) ++ fracRender frac ++ expRender exp) by
        simp [NumLit.render, List.append_assoc]]
      rw [List.cons_append]
      rw [scanOnce.eq_def]
      dsimp only
      rw [if_neg (by decide : ¬(('-' : Char) = '"')),
        if_neg (by decide : ¬(('-' : Char) = '\x7b')),
        if_neg (by decide : ¬(('-' : Char) = '[')),
        if_neg (fun hh : ('-' : Char) = 'n' ∧ _ => by exact absurd hh.1 (by decide)),
        if_neg (fun hh : ('-' : Char) = 't' ∧ _ => by exact absurd hh.1 (by decide)),
        if_neg (fun hh : ('-' : Char) = 'f' ∧ _ => by exact absurd hh.1 (by decide))]
      have hp2 : parseNumLit
          ('-' :: (renderDigits (d :: t) ++ fracRender frac ++ expRender exp ++ r))
          = some (({ neg := true, intDigits := d :: t, frac := frac, exp := exp }
              : NumLit), r) := by
        rw [show ('-' :: (renderDigits (d :: t) ++ fracRender frac ++ expRender exp ++ r))
            = ({ neg := true, intDigits := d :: t, frac := frac, exp := exp }
                : NumLit).render ++ r by
          simp [NumLit.render, List.append_assoc]]
        exact hp
      rw [hp2]
      rfl

/-- A space before a token is skipped. -/
theorem skipWs_space (x : List Char) : skipWs (' ' :: x) = skipWs x := by
  rw [skipWs, if_pos (show isJsonWs ' ' = true from rfl)]

/-- One object entry followed by a comma: the object loop consumes the
quoted key, the colon, the value, and the comma, and continues with the
next key. -/
theorem scanObjectItems_step_more (f : Nat) (k : List Char) (X : List Char)
    (v : JValue) (tail rest5 : List Char)
    (hv : scanOnce f (skipWs X) = some (v, tail))
    (ht : skipWs tail = ',' :: rest5) :
    scanObjectItems (f + 1) (escapeString k ++ ':' :: ' ' :: X)
      = Option.map (fun p => ((k, v) :: p.1, p.2)) (scanObjectItems f (skipWs rest5)) := by
  simp only [escapeString, List.cons_append, scanObjectItems]
  rw [parseJString_escapeString k (':' :: ' ' :: X)]
  simp only [bind, Option.bind]
  rw [skipWs_nonWs ':' _ rfl]
  split
  next rest3 heq2 =>
    injection heq2 with _ h3
    subst h3
    rw [skipWs_space, hv]
    simp only [bind, Option.bind]
    rw [ht]
    split
    next r5 heq3 =>
      injection heq3 with h4 _
      exact absurd h4 (by decide)
    next r5 heq3 =>
      injection heq3 with _ h5
      subst h5
      rfl
    next hne1 hne2 =>
      exact (hne2 rest5 rfl).elim
  next hne =>
    exact (hne (' ' :: X) rfl).elim

/-- The last object entry: the object loop consumes the key, the colon,
the value, and the closing brace. -/
theorem scanObjectItems_step_last (f : Nat) (k : List Char) (X : List Char)
    (v : JValue) (tail r : List Char)
    (hv : scanOnce f (skipWs X) = some (v, tail))
    (ht : skipWs tail = '\x7d' :: r) :
    scanObjectItems (f + 1) (escapeString k ++ ':' :: ' ' :: X) = some ([(k, v)], r) := by
  simp only [escapeString, List.cons_append, scanObjectItems]
  rw [parseJString_escapeString k (':' :: ' ' :: X)]
  simp only [bind, Option.bind]
  rw [skipWs_nonWs ':' _ rfl]
  split
  next rest3 heq2 =>
    injection heq2 with _ h3
    subst h3
    rw [skipWs_space, hv]
    simp only [bind, Option.bind]
    rw [ht]
    split
    next r5 heq3 =>
      injection heq3 with _ h5
      subst h5
      rfl
    next r5 heq3 =>
      injection heq3 with h4 _
      exact absurd h4 (by decide)
    next hne1 hne2 =>
      exact (hne1 r rfl).elim
  next hne =>
    exact (hne (' ' :: X) rfl).elim

/-- One array item followed by a comma: the array loop consumes the
value and the comma and continues. -/
theorem scanArrayItems_step_more (f : Nat) (X : List Char) (v : JValue)
    (tail rest2 : List Char)
    (hv : scanOnce f X = some (v, tail)) (ht : skipWs tail = ',' :: rest2) :
    scanArrayItems (f + 1) X
      = Option.map (fun p => (v :: p.1, p.2)) (scanArrayItems f (skipWs rest2)) := by
  simp only [scanArrayItems]
  rw [hv]
  simp only [bind, Option.bind]
  rw [ht]
  split
  next r5 heq =>
    injection heq with h1 _
    exact absurd h1 (by decide)
  next r5 heq =>
    injection heq with _ h2
    subst h2
    rfl
  next hne1 hne2 =>
    exact (hne2 rest2 rfl).elim

/-- The last array item: the array loop consumes the value and the
closing bracket. -/
theorem scanArrayItems_step_last (f : Nat) (X : List Char) (v : JValue)
    (tail r : List Char)
    (hv : scanOnce f X = some (v, tail)) (ht : skipWs tail = ']' :: r) :
    scanArrayItems (f + 1) X = some ([v], r) := by
  simp only [scanArrayItems]
  rw [hv]
  simp only [bind, Option.bind]
  rw [ht]
  split
  next r5 heq =>
    injection heq with _ h2
    subst h2
    rfl
  next r5 heq =>
    injection heq with h1 _
    exact absurd h1 (by decide)
  next hne1 hne2 =>
    exact (hne1 r rfl).elim


/-- A delimiter head gives the number-delimiter condition. -/
theorem numDelim_cons (c : Char) (cs : List Char) (h1 : c.isDigit = false)
    (h2 : c ≠ '.') (h3 : c ≠ 'e') (h4 : c ≠ 'E') : numDelim (c :: cs) := by
  intro x hx
  injection hx with hx
  subst hx
  exact ⟨h1, h2, h3, h4⟩

/-- Scanner dispatch into a nonempty object. -/
theorem scanOnce_obj (f : Nat) (rest : List Char)
    (hW : (skipWs rest).head? ≠ some '\x7d') :
    scanOnce (f + 1) ('\x7b' :: rest)
      = Option.map (fun p => (JValue.jobj p.1, p.2)) (scanObjectItems f (skipWs rest)) := by
  rw [scanOnce.eq_def]
  dsimp only
  rw [if_neg (by decide : ¬(('\x7b' : Char) = '"')),
    if_pos (show ('\x7b' : Char) = '\x7b' from rfl)]
  split
  next rest2 heq =>
    rw [heq] at hW
    simp at hW
  next => rfl

/-- Scanner dispatch into a nonempty array (whose first item is an
object, as in the emitted documents). -/
theorem scanOnce_arr (f : Nat) (rest : List Char)
    (hW : (skipWs rest).head? ≠ some ']') :
    scanOnce (f + 1) ('[' :: rest)
      = Option.map (fun p => (JValue.jarr p.1, p.2)) (scanArrayItems f (skipWs rest)) := by
  rw [scanOnce.eq_def]
  dsimp only
  rw [if_neg (by decide : ¬(('[' : Char) = '"')),
    if_neg (by decide : ¬(('[' : Char) = '\x7b')),
    if_pos (show ('[' : Char) = '[' from rfl)]
  split
  next rest2 heq =>
    rw [heq] at hW
    simp at hW
  next => rfl

/-- The scanner reads one emitted segment object back as its `JValue`. -/
theorem scanOnce_segObject (f : Nat) (s : Segment) (r : List Char)
    (h1 : s.start.wf = true) (h2 : s.endT.wf = true) :
    scanOnce (f + 5) (dumpValue (Segment.json s) 1 ++ r) = some (Segment.json s, r) := by
  simp only [Segment.json, dumpValue, dumpEntries, List.isEmpty_cons, List.isEmpty_nil,
    List.cons_append, List.append_assoc, List.append_nil, List.nil_append,
    Bool.false_eq_true, if_false, if_true, List.singleton_append]
  set X3 := escapeString s.text ++ (nlIndent 1 ++ '\x7d' :: r) with hX3
  set X2 := s.endT.render
    ++ (',' :: (nlIndent (1 + 1) ++ (escapeString "text".toList ++ ':' :: ' ' :: X3)))
    with hX2
  set X1 := s.start.render
    ++ (',' :: (nlIndent (1 + 1) ++ (escapeString "end".toList ++ ':' :: ' ' :: X2)))
    with hX1
  have hv1 : scanOnce (f + 3) (skipWs X1)
      = some (JValue.jnum s.start,
          ',' :: (nlIndent (1 + 1) ++ (escapeString "end".toList ++ ':' :: ' ' :: X2))) := by
    rw [hX1, skipWs_numRender s.start h1]
    rw [show (f + 3 : Nat) = (f + 2) + 1 from rfl]
    exact scanOnce_num (f + 2) s.start h1 _
      (numDelim_cons ',' _ rfl (by decide) (by decide) (by decide))
  have ht1 : skipWs (',' :: (nlIndent (1 + 1) ++ (escapeString "end".toList ++ ':' :: ' ' :: X2)))
      = ',' :: (nlIndent (1 + 1) ++ (escapeString "end".toList ++ ':' :: ' ' :: X2)) :=
    skipWs_nonWs ',' _ rfl
  have hv2 : scanOnce (f + 2) (skipWs X2)
      = some (JValue.jnum s.endT,
          ',' :: (nlIndent (1 + 1) ++ (escapeString "text".toList ++ ':' :: ' ' :: X3))) := by
    rw [hX2, skipWs_numRender s.endT h2]
    rw [show (f + 2 : Nat) = (f + 1) + 1 from rfl]
    exact scanOnce_num (f + 1) s.endT h2 _
      (numDelim_cons ',' _ rfl (by decide) (by decide) (by decide))
  have ht2 : skipWs (',' :: (nlIndent (1 + 1) ++ (escapeString "text".toList ++ ':' :: ' ' :: X3)))
      = ',' :: (nlIndent (1 + 1) ++ (escapeString "text".toList ++ ':' :: ' ' :: X3)) :=
    skipWs_nonWs ',' _ rfl
  have hv3 : scanOnce (f + 1) (skipWs X3)
      = some (JValue.jstr s.text, nlIndent 1 ++ '\x7d' :: r) := by
    rw [hX3, skipWs_strRender]
    exact scanOnce_str f s.text _
  have ht3 : skipWs (nlIndent 1 ++ '\x7d' :: r) = '\x7d' :: r := by
    rw [skipWs_nlIndent]
    exact skipWs_nonWs '\x7d' r rfl
  have hW1 : (skipWs (nlIndent (1 + 1)
      ++ (escapeString "start".toList ++ ':' :: ' ' :: X1))).head? ≠ some '\x7d' := by
    rw [skipWs_nlIndent, skipWs_strRender]
    simp [escapeString]
  rw [show (f + 5 : Nat) = (f + 4) + 1 from rfl, scanOnce_obj (f + 4) _ hW1]
  rw [skipWs_nlIndent, skipWs_strRender]
  rw [show (f + 4 : Nat) = (f + 3) + 1 from rfl,
    scanObjectItems_step_more (f + 3) _ _ _ _ _ hv1 ht1]
  rw [skipWs_nlIndent, skipWs_strRender]
  rw [show (f + 3 : Nat) = (f + 2) + 1 from rfl,
    scanObjectItems_step_more (f + 2) _ _ _ _ _ hv2 ht2]
  rw [skipWs_nlIndent, skipWs_strRender]
  rw [show (f + 2 : Nat) = (f + 1) + 1 from rfl,
    scanObjectItems_step_last (f + 1) _ _ _ _ _ hv3 ht3]
  simp [Option.map]



/-- A newline before a token is skipped. -/
theorem skipWs_newline (x : List Char) : skipWs ('\n' :: x) = skipWs x := by
  rw [skipWs, if_pos (show isJsonWs '\n' = true from rfl)]

/-- An emitted segment object starts with a brace, never whitespace. -/
theorem skipWs_dumpSeg (s : Segment) (y : List Char) :
    skipWs (dumpValue (Segment.json s) 1 ++ y) = dumpValue (Segment.json s) 1 ++ y := by
  simp only [Segment.json, dumpValue, List.cons_append]
  exact skipWs_nonWs _ _ rfl

/-- The array loop reads an emitted nonempty segment-object item list
back as its values, given enough recursion budget. -/
theorem scanArrayItems_segs (segs : List Segment) : ∀ (f : Nat) (r : List Char),
    (∀ s ∈ segs, s.start.wf = true ∧ s.endT.wf = true) → segs ≠ [] →
    scanArrayItems (f + 5 + segs.length)
      (skipWs (dumpItems (segs.map Segment.json) 1 ++ '\n' :: ']' :: r))
      = some (segs.map Segment.json, r) := by
  induction segs with
  | nil =>
      intro f r _ hne
      exact (hne rfl).elim
  | cons s tail ih =>
      intro f r hwf _
      rcases tail with _ | ⟨s2, t2⟩
      · simp only [List.map_cons, List.map_nil, dumpItems, List.isEmpty_nil, if_true,
          List.append_nil, List.nil_append, List.append_assoc, List.cons_append,
          List.length_cons, List.length_nil]
        rw [skipWs_nlIndent, skipWs_dumpSeg]
        rw [show f + 5 + (0 + 1) = (f + 5) + 1 from by omega]
        exact scanArrayItems_step_last (f + 5) _ _ _ _
          (scanOnce_segObject f s ('\n' :: ']' :: r) (hwf s (by simp)).1 (hwf s (by simp)).2)
          (by rw [skipWs_newline]; exact skipWs_nonWs ']' r rfl)
      · simp only [List.map_cons, dumpItems, List.isEmpty_cons, Bool.false_eq_true,
          if_false, List.singleton_append, List.append_assoc, List.cons_append,
          List.nil_append, List.length_cons]
        rw [skipWs_nlIndent, skipWs_dumpSeg]
        rw [show f + 5 + (t2.length + 1 + 1) = (f + 5 + (t2.length + 1)) + 1 from by omega]
        rw [scanArrayItems_step_more (f + 5 + (t2.length + 1)) _ _ _ _
          (by rw [show f + 5 + (t2.length + 1) = (f + (t2.length + 1)) + 5 from by omega]
              exact scanOnce_segObject (f + (t2.length + 1)) s _
                (hwf s (by simp)).1 (hwf s (by simp)).2)
          (skipWs_nonWs ',' _ rfl)]
        have ih' := ih f r (fun x hx => hwf x (by simp [hx])) (by simp)
        simp only [List.map_cons, dumpItems, List.isEmpty_cons, Bool.false_eq_true,
          if_false, List.singleton_append, List.append_assoc, List.cons_append,
          List.nil_append, List.length_cons] at ih'
        rw [ih']
        rfl

/-- Each emitted item contributes at least four characters, so the
document length dominates the recursion budget the scan needs. -/
theorem dumpItems_seg_length (segs : List Segment) :
    4 * segs.length ≤ (dumpItems (segs.map Segment.json) 1).length := by
  induction segs with
  | nil => simp [dumpItems]
  | cons s tail ih =>
      have hobj : 1 ≤ (dumpValue (Segment.json s) 1).length := by
        simp [Segment.json, dumpValue]
      simp only [List.map_cons, dumpItems, List.length_append, nlIndent,
        List.length_cons, List.length_replicate, List.length_nil]
      simp only [List.length_cons] at ih
      omega

/-- `json.load` on the file written by `json.dump(segments, f, indent=2)`
returns exactly the dumped list of segment dicts. -/
theorem jsonLoads_dumpSegments (segs : List Segment)
    (hwf : ∀ s ∈ segs, s.start.wf = true ∧ s.endT.wf = true) :
    jsonLoads (dumpSegments segs) = some (segmentsJson segs) := by
  rcases segs with _ | ⟨s, tail⟩
  · rfl
  · have hlen := dumpItems_seg_length (s :: tail)
    simp only [List.length_cons] at hlen
    unfold jsonLoads dumpSegments segmentsJson
    simp only [List.map_cons, dumpValue, nlIndent, Nat.mul_zero, List.replicate,
      List.cons_append, List.append_assoc, List.nil_append, List.append_nil,
      List.length_cons, List.length_append, List.length_nil, Nat.zero_add]
    simp only [List.map_cons] at hlen
    rw [skipWs_nonWs '[' _ rfl]
    have hW : (skipWs (dumpItems (s.json :: List.map Segment.json tail) 1
        ++ ['\n', ']'])).head? ≠ some ']' := by
      simp only [dumpItems, List.append_assoc, List.cons_append, List.nil_append,
        List.singleton_append]
      rw [skipWs_nlIndent, skipWs_dumpSeg]
      simp [Segment.json, dumpValue]
    rw [show (dumpItems (s.json :: List.map Segment.json tail) 1).length + (0 + 1 + 1) + 1 + 1
        = ((dumpItems (s.json :: List.map Segment.json tail) 1).length + 3) + 1 from by omega]
    rw [scanOnce_arr ((dumpItems (s.json :: List.map Segment.json tail) 1).length + 3) _ hW]
    rw [show (dumpItems (s.json :: List.map Segment.json tail) 1).length + 3
        = ((dumpItems (s.json :: List.map Segment.json tail) 1).length + 3
            - 5 - (tail.length + 1)) + 5 + (tail.length + 1) from by omega]
    have harr := scanArrayItems_segs (s :: tail)
      ((dumpItems (s.json :: List.map Segment.json tail) 1).length + 3
        - 5 - (tail.length + 1)) [] hwf (by simp)
    simp only [List.map_cons, List.length_cons] at harr
    rw [harr]
    rfl

/-! ### Claim theorems: JSON round-trip -/

/-- Read the `(start, end, text)` tuple out of one parsed segment dict,
as a consumer of the JSON file does (`d["start"], d["end"], d["text"]`). -/
def segTuple (v : JValue) : Option (NumLit × NumLit × List Char) :=
  match v with
  | JValue.jobj kvs =>
      match assocLast kvs "start".toList, assocLast kvs "end".toList,
          assocLast kvs "text".toList with
      | some (JValue.jnum a), some (JValue.jnum b), some (JValue.jstr t) =>
          some (a, b, t)
      | _, _, _ => none
  | _ => none

/-- The tuples of every parsed segment dict, in array order. -/
def segTuples (v : JValue) : Option (List (NumLit × NumLit × List Char)) :=
  match v with
  | JValue.jarr vs => vs.mapM segTuple
  | _ => none

/-- `json.load` the document and read all tuples back. -/
def parseSegTuples (cs : List Char) : Option (List (NumLit × NumLit × List Char)) :=
  (jsonLoads cs).bind segTuples

/-- One segment dict yields its own tuple. -/
theorem segTuple_json (s : Segment) :
    segTuple (Segment.json s) = some (s.start, s.endT, s.text) := rfl

/-- The dumped value yields the original tuples in order. -/
theorem segTuples_json (segs : List Segment) :
    segTuples (segmentsJson segs)
      = some (segs.map fun s => (s.start, s.endT, s.text)) := by
  simp only [segTuples, segmentsJson]
  induction segs with
  | nil => rfl
  | cons s tail ih =>
      simp only [List.map_cons, List.mapM_cons, segTuple_json, ih]
      rfl

/-- Claim C9: serializing a segment list with `json.dump(segments, f,
indent=2)` and parsing the file back with `json.load` yields identical
`(start, end, text)` tuples in the same order.  The hypothesis states
that the timestamps are well-formed number literals, which every float
`repr` is. -/
theorem claim_C9 (segs : List Segment)
    (hwf : ∀ s ∈ segs, s.start.wf = true ∧ s.endT.wf = true) :
    parseSegTuples (dumpSegments segs)
      = some (segs.map fun s => (s.start, s.endT, s.text)) := by
  unfold parseSegTuples
  rw [jsonLoads_dumpSegments segs hwf]
  simp [segTuples_json]

/-- Witness for C9 on the concrete normalized segments of `rawSmall`
(timestamps `0.0`, `1.2`, `2.5`). -/
theorem claim_C9_witness :
    parseSegTuples (dumpSegments (normalizeSegments rawSmall.segments))
      = some ((normalizeSegments rawSmall.segments).map
          fun s => (s.start, s.endT, s.text)) :=
  claim_C9 (normalizeSegments rawSmall.segments) (by decide)

end Synoid
